/-
Verification of the multi-angle face recognition backend.

Shallow embedding of:
  * backend/multi_angle_face_model.py  (identity resolver, `recognize_face_multi_angle`)
  * backend/multi_angle_database.py    (bounded per-person encoding store)
  * backend/live_face_scanner.py       (pose-gated live capture)
  * backend/enhanced_matching_engine.py (single / multi-angle matching, top-k search)

Python floats are modelled by `ℝ` (where `exp`/`sqrt` appear) or `ℚ`
(pure bookkeeping); the float value `inf` used for missing angle buckets is
modelled by `⊤ : ℝ≥0∞` (all distances are nonnegative, and Python's
`max(0, (1 - d) * 100)` coincides with truncated subtraction in `ℝ≥0∞`).
-/
import Mathlib

open scoped ENNReal

/-- A 128-dimensional face embedding vector (`face_recognition` encoding). -/
abbrev Enc : Type := Fin 128 → ℝ

/-- Euclidean distance between two encodings: `np.linalg.norm(a - b)`,
which is what `face_recognition.face_distance` computes. -/
noncomputable def faceDistance (a b : Enc) : ℝ :=
  Real.sqrt (∑ i, (a i - b i) ^ 2)

/-! ## Identity resolver (`multi_angle_face_model.py`)

`known_faces` maps a person id to an `encodings` dict with (up to) the keys
`center`, `left`, `right`.  We model the dict by three optional encodings and
the whole store by an association list in iteration order. -/

/-- The (up to) three stored angle encodings of one person
(`known_faces[person_id]['encodings']`). -/
structure AngleEncodings where
  center : Option Enc
  left   : Option Enc
  right  : Option Enc

/-- Distance from the query to one stored angle bucket.  A missing bucket
contributes `float('inf')`, modelled as `⊤`. -/
noncomputable def bucketDistance (stored : Option Enc) (query : Enc) : ℝ≥0∞ :=
  match stored with
  | none => ⊤
  | some e => ENNReal.ofReal (faceDistance e query)

/-- Python `primary_distance` of `recognize_face_multi_angle`: the dominant-bucket
distance for a known orientation, the minimum of the three distances for an
unknown orientation. -/
noncomputable def primaryDistance (rec : AngleEncodings) (query : Enc)
    (photoOrientation : Option String) : ℝ≥0∞ :=
  if photoOrientation = some "center" then
    bucketDistance rec.center query
  else if photoOrientation = some "left" ∨ photoOrientation = some "angle_left" then
    bucketDistance rec.left query
  else if photoOrientation = some "right" ∨ photoOrientation = some "angle_right" then
    bucketDistance rec.right query
  else
    min (bucketDistance rec.center query)
      (min (bucketDistance rec.left query) (bucketDistance rec.right query))

/-- Python `weighted_distance` of `recognize_face_multi_angle`: the orientation-aware
weighted combination of the three bucket distances (mean of the three for an
unknown orientation). -/
noncomputable def weightedDistance (rec : AngleEncodings) (query : Enc)
    (photoOrientation : Option String) : ℝ≥0∞ :=
  if photoOrientation = some "center" then
    bucketDistance rec.center query * (6/10) + bucketDistance rec.left query * (2/10) +
      bucketDistance rec.right query * (2/10)
  else if photoOrientation = some "left" ∨ photoOrientation = some "angle_left" then
    bucketDistance rec.left query * (6/10) + bucketDistance rec.center query * (3/10) +
      bucketDistance rec.right query * (1/10)
  else if photoOrientation = some "right" ∨ photoOrientation = some "angle_right" then
    bucketDistance rec.right query * (6/10) + bucketDistance rec.center query * (3/10) +
      bucketDistance rec.left query * (1/10)
  else
    (bucketDistance rec.center query + bucketDistance rec.left query +
      bucketDistance rec.right query) / 3

/-- Python `final_distance = min(primary_distance, weighted_distance)`: the identity's
comparable distance. -/
noncomputable def finalDistance (rec : AngleEncodings) (query : Enc)
    (photoOrientation : Option String) : ℝ≥0∞ :=
  min (primaryDistance rec query photoOrientation)
    (weightedDistance rec query photoOrientation)

/-- The candidate-selection loop of `recognize_face_multi_angle`: scan all
identities, keeping the first one whose final distance strictly improves on the
running best (initially `None` at distance `inf`).  Returns
`(best_person_id, best_weighted_distance)`. -/
noncomputable def bestCandidate (store : List (String × AngleEncodings)) (query : Enc)
    (photoOrientation : Option String) : Option String × ℝ≥0∞ :=
  store.foldl
    (fun acc pr =>
      if finalDistance pr.2 query photoOrientation < acc.2 then
        (some pr.1, finalDistance pr.2 query photoOrientation)
      else acc)
    (none, ⊤)

/-- Adaptive `base_tolerance` of `recognize_face_multi_angle`, using the
values of `face_recognition_config.py` (the config module is present, so
`USE_CONFIG` is true): default `0.6`, accessories `0.68`, `+0.05` for quality
below `0.5`, raised to at least `0.63` for side profiles. -/
def baseTolerance (hasAccessories : Bool) (qualityScore : ℚ)
    (photoOrientation : Option String) : ℚ :=
  let t1 : ℚ := if hasAccessories then 68/100 else 6/10
  let t2 : ℚ := if qualityScore < 1/2 then t1 + 5/100 else t1
  if photoOrientation = some "left" ∨ photoOrientation = some "right" ∨
      photoOrientation = some "angle_left" ∨ photoOrientation = some "angle_right" then
    max t2 (63/100)
  else t2

/-- Python `min_confidence_required = (1 - base_tolerance) * 100`, then
`if min_confidence_required > MINIMUM_MATCH_THRESHOLD: min_confidence_required
= 70.0` (the code lowers the requirement to 70 whenever it exceeds 70). -/
def minConfidenceRequired (hasAccessories : Bool) (qualityScore : ℚ)
    (photoOrientation : Option String) : ℚ :=
  let m := (1 - baseTolerance hasAccessories qualityScore photoOrientation) * 100
  if 70 < m then 70 else m

/-- Python `confidence_percentage = max(0, (1 - best_weighted_distance) * 100)`;
truncated subtraction in `ℝ≥0∞` realises the clamp at `0` (including the
`-inf` case when the best distance is `inf`). -/
noncomputable def confidencePercentage (bestDistance : ℝ≥0∞) : ℝ≥0∞ :=
  (1 - bestDistance) * 100

/-- Outcome of `recognize_face_multi_angle`: on a match the tuple
`(person_id, confidence, ..., distance, ...)`, otherwise `(None, 0.0, ...)`. -/
structure RecognitionResult where
  personId     : Option String
  confidence   : ℝ≥0∞
  bestDistance : ℝ≥0∞
  isMatch      : Bool

/-- Python `recognize_face_multi_angle(photo_encoding, ..., photo_orientation,
has_accessories, quality_score)`. -/
noncomputable def recognizeFaceMultiAngle (store : List (String × AngleEncodings))
    (query : Enc) (photoOrientation : Option String) (hasAccessories : Bool)
    (qualityScore : ℚ) : RecognitionResult :=
  if store.isEmpty then ⟨none, 0, ⊤, false⟩
  else
    let best := bestCandidate store query photoOrientation
    let conf := confidencePercentage best.2
    if ENNReal.ofReal ((minConfidenceRequired hasAccessories qualityScore
        photoOrientation : ℚ) : ℝ) ≤ conf then
      ⟨best.1, conf, best.2, true⟩
    else
      ⟨none, 0, best.2, false⟩

/-! ## Bounded per-person encoding store (`multi_angle_database.py`)

One person's rows of the `face_encodings` table, kept in insertion (primary
key) order; `nextId` plays the role of the auto-increment counter
(`cursor.lastrowid`).  The 128-D vector payload is stored but never inspected
by the bookkeeping logic, mirroring the BLOB column. -/

/-- One row of `face_encodings` for a fixed person. -/
structure EncodingRecord where
  id              : ℕ
  faceDetectionId : ℕ
  angle           : String
  quality         : ℚ
  isPrimary       : Bool
  encodingVector  : Fin 128 → ℚ

/-- All `face_encodings` rows of one person, in id (insertion) order, plus the
auto-increment counter. -/
structure PersonStore where
  records : List EncodingRecord
  nextId  : ℕ

def emptyPersonStore : PersonStore := ⟨[], 1⟩

/-- Python `_get_encoding_count`. -/
def getEncodingCount (s : PersonStore) : ℕ := s.records.length

/-- Python `_get_encoding_by_angle`: `SELECT ... WHERE angle = %s LIMIT 1`, read in
row (id) order. -/
def getEncodingByAngle (s : PersonStore) (angle : String) : Option EncodingRecord :=
  s.records.find? (fun r => r.angle = angle)

/-- Python `_get_lowest_quality_encoding`: `ORDER BY quality_score ASC LIMIT 1`
(stable scan in id order, so the earliest row among equal qualities). -/
def getLowestQualityEncoding (s : PersonStore) : Option EncodingRecord :=
  s.records.foldl
    (fun acc r =>
      match acc with
      | none => some r
      | some b => if r.quality < b.quality then some r else some b)
    none

/-- Python `_delete_encoding`. -/
def deleteEncoding (s : PersonStore) (encodingId : ℕ) : PersonStore :=
  { s with records := s.records.filter (fun r => r.id ≠ encodingId) }

/-- First pass of `_update_primary_encoding`: `SET is_primary = 0`. -/
def clearPrimary (l : List EncodingRecord) : List EncodingRecord :=
  l.map (fun r => { r with isPrimary := false })

/-- The row selected by `ORDER BY quality_score DESC LIMIT 1` (stable scan in
id order: the earliest row among those of maximal quality). -/
def topQuality : List EncodingRecord → Option EncodingRecord
  | [] => none
  | r :: t => some (t.foldl (fun b x => if b.quality < x.quality then x else b) r)

/-- Python `_update_primary_encoding`: clear all primary flags, then set the flag on
the highest-quality row (by id). -/
def updatePrimaryEncoding (s : PersonStore) : PersonStore :=
  let cleared := clearPrimary s.records
  match topQuality cleared with
  | none => { s with records := cleared }
  | some top =>
      { s with
        records := cleared.map
          (fun r => if r.id = top.id then { r with isPrimary := true } else r) }

/-- Outcome of `add_face_encoding`: a fresh row id, the existing same-angle
row's id when skipped for quality (`return existing_angle['id']`), or `-1`
when the store is full and the quality does not beat the worst row. -/
inductive UpsertResult where
  | accepted (encodingId : ℕ)
  | rejectedSameAngle (existingId : ℕ)
  | rejectedCapacity
deriving DecidableEq

/-- The unconditional `INSERT` tail of `add_face_encoding`, followed by
`_update_primary_encoding`. -/
def insertEncoding (s : PersonStore) (encoding : Fin 128 → ℚ) (angle : String)
    (quality : ℚ) (faceDetectionId : ℕ) : PersonStore × UpsertResult :=
  let r : EncodingRecord :=
    { id := s.nextId, faceDetectionId := faceDetectionId, angle := angle,
      quality := quality, isPrimary := false, encodingVector := encoding }
  (updatePrimaryEncoding ⟨s.records ++ [r], s.nextId + 1⟩, .accepted r.id)

/-- Python `add_face_encoding(person_id, encoding, angle, quality_score,
face_detection_id)`: bounded upsert with the capacity-5 replacement policy. -/
def addFaceEncoding (s : PersonStore) (encoding : Fin 128 → ℚ) (angle : String)
    (quality : ℚ) (faceDetectionId : ℕ) : PersonStore × UpsertResult :=
  if 5 ≤ getEncodingCount s then
    match getEncodingByAngle s angle with
    | some existing =>
        if existing.quality < quality then
          insertEncoding (deleteEncoding s existing.id) encoding angle quality faceDetectionId
        else
          (s, .rejectedSameAngle existing.id)
    | none =>
        match getLowestQualityEncoding s with
        | some lowest =>
            if lowest.quality < quality then
              insertEncoding (deleteEncoding s lowest.id) encoding angle quality faceDetectionId
            else
              (s, .rejectedCapacity)
        | none => (s, .rejectedCapacity)
  else
    insertEncoding s encoding angle quality faceDetectionId

/-- One call to `add_face_encoding`, as data. -/
structure UpsertCall where
  encoding        : Fin 128 → ℚ
  angle           : String
  quality         : ℚ
  faceDetectionId : ℕ

/-- A sequence of `add_face_encoding` calls against one person's store. -/
def runCalls (s : PersonStore) (calls : List UpsertCall) : PersonStore :=
  calls.foldl
    (fun st c => (addFaceEncoding st c.encoding c.angle c.quality c.faceDetectionId).1) s

/-! ## Live capture pose gating (`live_face_scanner.py`)

`detect_face_in_frame` runs a chain of checks on each camera frame; the
image-processing outcomes (face count, face box size, brightness, sharpness,
landmark availability, estimated yaw) are the frame's observable data. -/

/-- The capture stage (`self.current_angle`, a key of `ANGLES`). -/
inductive CaptureAngle where
  | front
  | left
  | right
deriving DecidableEq

/-- Python `ANGLES[...]['min_angle'] / ['max_angle']`. -/
def angleRange : CaptureAngle → ℚ × ℚ
  | .front => (-15, 15)
  | .left  => (-90, -25)
  | .right => (25, 90)

/-- The measurements `detect_face_in_frame` extracts from one frame. -/
structure Frame where
  faceCount    : ℕ
  faceWidth    : ℤ
  faceHeight   : ℤ
  brightness   : ℚ
  sharpness    : ℚ
  hasLandmarks : Bool
  yaw          : ℚ

/-- Scanner session state: current stage, poses already captured this session
(`captured_pose_angles`), the stability counter and the last detected yaw. -/
structure ScannerState where
  currentAngle       : CaptureAngle
  capturedPoseAngles : List (CaptureAngle × ℚ)
  poseStableCount    : ℕ
  lastDetectedAngle  : ℚ

/-- Python `detect_face_in_frame`: the full check chain.  Returns the
`face_detected` flag and the updated scanner state (every failed check resets
`pose_stable_count` to 0; a passing frame increments it and is accepted once
the counter reaches `POSE_STABILITY_FRAMES = 5`). -/
def detectFaceInFrame (st : ScannerState) (f : Frame) : Bool × ScannerState :=
  if f.faceCount = 0 then (false, { st with poseStableCount := 0 })
  else if 1 < f.faceCount then (false, { st with poseStableCount := 0 })
  else if f.faceWidth < 100 ∨ f.faceHeight < 100 then (false, { st with poseStableCount := 0 })
  else if 800 < f.faceWidth ∨ 800 < f.faceHeight then (false, { st with poseStableCount := 0 })
  else if f.brightness < 40 then (false, { st with poseStableCount := 0 })
  else if 220 < f.brightness then (false, { st with poseStableCount := 0 })
  else if f.sharpness < 50 then (false, { st with poseStableCount := 0 })
  else if f.hasLandmarks = false then (false, { st with poseStableCount := 0 })
  else
    -- landmarks available: `self.last_detected_angle = yaw_angle`
    let st1 := { st with lastDetectedAngle := f.yaw }
    -- `_validate_pose_for_stage`: min_angle <= yaw <= max_angle
    if (angleRange st1.currentAngle).1 ≤ f.yaw ∧ f.yaw ≤ (angleRange st1.currentAngle).2 then
      -- `_check_duplicate_pose`: any captured pose closer than 20 degrees?
      if ∃ p ∈ st1.capturedPoseAngles, |f.yaw - p.2| < 20 then
        (false, { st1 with poseStableCount := 0 })
      else
        let st2 := { st1 with poseStableCount := st1.poseStableCount + 1 }
        if st2.poseStableCount < 5 then (false, st2) else (true, st2)
    else (false, { st1 with poseStableCount := 0 })

/-- All pre-stability checks of `detect_face_in_frame` for a frame, given the
current stage and the poses captured so far (the only state the checks read). -/
def passesAllChecks (angle : CaptureAngle) (captured : List (CaptureAngle × ℚ))
    (f : Frame) : Prop :=
  f.faceCount = 1 ∧ 100 ≤ f.faceWidth ∧ 100 ≤ f.faceHeight ∧
  f.faceWidth ≤ 800 ∧ f.faceHeight ≤ 800 ∧
  40 ≤ f.brightness ∧ f.brightness ≤ 220 ∧ 50 ≤ f.sharpness ∧
  f.hasLandmarks = true ∧
  (angleRange angle).1 ≤ f.yaw ∧ f.yaw ≤ (angleRange angle).2 ∧
  ∀ p ∈ captured, 20 ≤ |f.yaw - p.2|

instance (angle : CaptureAngle) (captured : List (CaptureAngle × ℚ)) (f : Frame) :
    Decidable (passesAllChecks angle captured f) := by
  unfold passesAllChecks
  infer_instance

/-- Process a sequence of frames, returning the last frame's
`face_detected` flag and the final state. -/
def runFrames (st : ScannerState) (frames : List Frame) : Bool × ScannerState :=
  frames.foldl (fun acc f => detectFaceInFrame acc.2 f) (false, st)

/-! ## Matching engine (`enhanced_matching_engine.py`)

The cached population `get_all_encodings()` is a flat list of rows; distances
are plain Euclidean (`np.linalg.norm`), confidence is `exp(-distance)` clipped
to `[0, 1]`. -/

/-- One cached row of `face_encodings` as seen by the engine. -/
structure EngineRecord where
  id            : ℕ
  personId      : ℕ
  angle         : String
  qualityScore  : ℝ
  encodingArray : Enc

/-- Python `_distance_to_confidence`: `np.clip(np.exp(-distance), 0.0, 1.0)`. -/
noncomputable def distanceToConfidence (distance : ℝ) : ℝ :=
  min 1 (max 0 (Real.exp (-distance)))

/-- Python `ANGLE_WEIGHTS.get(query_angle, 0.5)`. -/
noncomputable def angleWeight (angle : String) : ℝ :=
  if angle = "frontal" then 1
  else if angle = "left_45" then 8/10
  else if angle = "right_45" then 8/10
  else if angle = "left_90" then 6/10
  else if angle = "right_90" then 6/10
  else 1/2

/-- The per-record comparison distance of `match_face`: plain Euclidean
distance, multiplied by `0.9` when a (truthy) angle hint matches the stored
row's angle. -/
noncomputable def effectiveDistance (query : Enc) (hint : Option String)
    (r : EngineRecord) : ℝ :=
  match hint with
  | none => faceDistance query r.encodingArray
  | some a =>
      if a ≠ "" ∧ r.angle = a then faceDistance query r.encodingArray * (9/10)
      else faceDistance query r.encodingArray

/-- One iteration of the best-match scan of `match_face` (`best_match = None`,
`best_distance = inf`, strict improvement).  Since every comparison distance
is a finite real, the first row always replaces the `None` start. -/
noncomputable def matchFaceStep (query : Enc) (hint : Option String)
    (acc : Option (EngineRecord × ℝ)) (r : EngineRecord) :
    Option (EngineRecord × ℝ) :=
  match acc with
  | none => some (r, effectiveDistance query hint r)
  | some (b, bd) =>
      if effectiveDistance query hint r < bd then
        some (r, effectiveDistance query hint r)
      else some (b, bd)

/-- The best-match scan of `match_face` over the cached population. -/
noncomputable def bestEngineMatch (query : Enc) (hint : Option String)
    (records : List EngineRecord) : Option (EngineRecord × ℝ) :=
  records.foldl (matchFaceStep query hint) none

/-- Outcome of `match_face`. -/
inductive MatchFaceResult where
  | noEncodings
  | noMatch (bestDistance : ℝ)
  | matched (personId : ℕ) (confidence : ℝ) (distance : ℝ) (angle : String)
      (qualityScore : ℝ) (encodingId : ℕ)

/-- Python `match_face(encoding, angle)` against the cached population, with match
threshold `self.threshold` (default `0.6`). -/
noncomputable def matchFace (records : List EngineRecord) (query : Enc)
    (hint : Option String) (threshold : ℝ) : MatchFaceResult :=
  if records.isEmpty then .noEncodings
  else
    match bestEngineMatch query hint records with
    | none => .noEncodings
    | some (b, bd) =>
        if bd < threshold then
          .matched b.personId
            (7/10 * distanceToConfidence bd + 3/10 * b.qualityScore)
            bd b.angle b.qualityScore b.id
        else .noMatch bd

/-- Group the cached rows by `person_id`, preserving first-appearance order of
persons and row order within a person (Python dict insertion order). -/
def addToGroups : List (ℕ × List EngineRecord) → EngineRecord →
    List (ℕ × List EngineRecord)
  | [], r => [(r.personId, [r])]
  | (p, rs) :: t, r =>
      if r.personId = p then (p, rs ++ [r]) :: t
      else (p, rs) :: addToGroups t r

/-- Python `person_encodings` of `match_multi_angle`. -/
def groupByPerson (records : List EngineRecord) : List (ℕ × List EngineRecord) :=
  records.foldl addToGroups []

/-- One iteration of the per-angle best-distance scan of `match_multi_angle`
(`best_angle_distance = inf`, `best_angle_quality = 0.0`, strict
improvement; the first row always replaces the infinite start). -/
noncomputable def bestAngleStep (queryEnc : Enc) (acc : Option (ℝ × ℝ))
    (r : EngineRecord) : Option (ℝ × ℝ) :=
  match acc with
  | none => some (faceDistance queryEnc r.encodingArray, r.qualityScore)
  | some (bd, bq) =>
      if faceDistance queryEnc r.encodingArray < bd then
        some (faceDistance queryEnc r.encodingArray, r.qualityScore)
      else some (bd, bq)

/-- Per query angle: the best (minimum) distance to the person's stored rows
together with the quality of the row attaining it (`best_angle_distance`,
`best_angle_quality`). -/
noncomputable def bestAngleMatch (personEncs : List EngineRecord) (queryEnc : Enc) :
    Option (ℝ × ℝ) :=
  personEncs.foldl (bestAngleStep queryEnc) none

/-- The `match_scores` list of `match_multi_angle` for one person: one
weighted score per query angle whose best distance beats the threshold
(angles at or above the threshold contribute nothing). -/
noncomputable def matchScores (personEncs : List EngineRecord)
    (queries : List (String × Enc)) (threshold : ℝ) : List ℝ :=
  queries.filterMap
    (fun q =>
      match bestAngleMatch personEncs q.2 with
      | none => none
      | some (bd, bq) =>
          if bd < threshold then
            some (angleWeight q.1 * (7/10 * distanceToConfidence bd + 3/10 * bq))
          else none)

/-- Arithmetic mean of a list of reals (`np.mean`). -/
noncomputable def listMean (l : List ℝ) : ℝ := l.sum / l.length

/-- Outcome of `match_multi_angle`. -/
inductive MultiMatchResult where
  | noQuery
  | noEncodings
  | matched (personId : ℕ) (confidence : ℝ)
  | noConfidentMatch (bestConfidence : ℝ)

/-- One iteration of the person-selection loop of `match_multi_angle`:
running best (`best_person_match = None`, `best_person_confidence = 0.0`),
strict improvement, persons with an empty score list skipped. -/
noncomputable def personScanStep (queries : List (String × Enc)) (threshold : ℝ)
    (acc : Option ℕ × ℝ) (g : ℕ × List EngineRecord) : Option ℕ × ℝ :=
  let scores := matchScores g.2 queries threshold
  if scores.isEmpty then acc
  else if acc.2 < listMean scores then (some g.1, listMean scores) else acc

/-- The person-selection loop of `match_multi_angle`. -/
noncomputable def bestPersonScan (groups : List (ℕ × List EngineRecord))
    (queries : List (String × Enc)) (threshold : ℝ) : Option ℕ × ℝ :=
  groups.foldl (personScanStep queries threshold) (none, 0)

/-- Python `match_multi_angle(encodings)`: accept only when a best person was
found and its averaged confidence exceeds `0.5`. -/
noncomputable def matchMultiAngle (records : List EngineRecord)
    (queries : List (String × Enc)) (threshold : ℝ) : MultiMatchResult :=
  if queries.isEmpty then .noQuery
  else if records.isEmpty then .noEncodings
  else
    match bestPersonScan (groupByPerson records) queries threshold with
    | (some pid, conf) =>
        if 1/2 < conf then .matched pid conf else .noConfidentMatch conf
    | (none, conf) => .noConfidentMatch conf

/-- One entry of the ranked list returned by `find_similar_faces`. -/
structure MatchEntry where
  personId     : ℕ
  distance     : ℝ
  confidence   : ℝ
  angle        : String
  qualityScore : ℝ

/-- Python `find_similar_faces(encoding, top_k)`: distances to the whole population,
stable-sorted by distance (`list.sort` is stable), truncated to `top_k`. -/
noncomputable def findSimilarFaces (records : List EngineRecord) (query : Enc)
    (topK : ℕ) : List MatchEntry :=
  if records.isEmpty then []
  else
    ((records.map
        (fun r =>
          ({ personId := r.personId,
             distance := faceDistance query r.encodingArray,
             confidence := distanceToConfidence (faceDistance query r.encodingArray),
             angle := r.angle,
             qualityScore := r.qualityScore } : MatchEntry))).mergeSort
      (fun a b => decide (a.distance ≤ b.distance))).take topK

/-! ## Specification-side definition (for the refinement check of C9) -/

/-- Specification-side per-person score of the multi-angle matcher, following
the claim's words: per query orientation take the best distance to the
identity's rows, convert it to `angle_weight * (0.7 * confidence +
0.3 * quality)`, and average over all the query orientations (no threshold
filter).  To be compared with the code-side `matchScores` / `listMean`. -/
noncomputable def specAverageScoreAllAngles (personEncs : List EngineRecord)
    (queries : List (String × Enc)) : ℝ :=
  listMean (queries.map
    (fun q =>
      match bestAngleMatch personEncs q.2 with
      | none => 0
      | some (bd, bq) =>
          angleWeight q.1 * (7/10 * distanceToConfidence bd + 3/10 * bq)))

/-! ## Concrete inputs used by the counterexamples and witnesses -/

/-- The all-zero encoding vector. -/
noncomputable def zeroEnc : Enc := fun _ => 0

/-- An encoding whose first coordinate is `c` and the rest zero; its Euclidean
distance to `zeroEnc` is `c` (for `0 ≤ c`). -/
noncomputable def unitEnc (c : ℝ) : Enc := fun i => if i = 0 then c else 0

/-- A resolver identity enrolled only at `center`, at distance `1/2` from
`zeroEnc`. -/
noncomputable def recCenterHalf : AngleEncodings :=
  { center := some (unitEnc (1/2)), left := none, right := none }

/-- A resolver identity enrolled only at `center`, exactly at `zeroEnc`. -/
noncomputable def recCenterZero : AngleEncodings :=
  { center := some zeroEnc, left := none, right := none }

/-- Resolver store with a single identity at distance `1/2` from the query. -/
noncomputable def storeC1 : List (String × AngleEncodings) :=
  [("person_0001", recCenterHalf)]

/-- Resolver store with a single center-only identity exactly at the query. -/
noncomputable def storeC2 : List (String × AngleEncodings) :=
  [("person_0001", recCenterZero)]

/-- Resolver store with two identities at distances `0` and `1/2`. -/
noncomputable def storeC3 : List (String × AngleEncodings) :=
  [("person_0001", recCenterZero), ("person_0002", recCenterHalf)]

/-- The all-zero rational payload vector for database rows. -/
def zeroQEnc : Fin 128 → ℚ := fun _ => 0

/-- A database row with the given id, detection id, angle, quality and flag. -/
def dbRec (i fd : ℕ) (a : String) (q : ℚ) (p : Bool) : EncodingRecord :=
  { id := i, faceDetectionId := fd, angle := a, quality := q, isPrimary := p,
    encodingVector := zeroQEnc }

/-- A one-row store: angle `frontal`, quality `0.9`, primary. -/
def c5SmallStore : PersonStore := ⟨[dbRec 1 1 "frontal" (9/10) true], 2⟩

/-- A store at capacity (5 rows, distinct angles, descending quality). -/
def c5FullStore : PersonStore :=
  ⟨[dbRec 1 1 "frontal" (9/10) true, dbRec 2 2 "left_45" (8/10) false,
    dbRec 3 3 "right_45" (7/10) false, dbRec 4 4 "left_90" (6/10) false,
    dbRec 5 5 "right_90" (5/10) false], 6⟩

/-- Two upserts with equal quality `1` at different angles (a quality tie). -/
def c6Calls : List UpsertCall :=
  [⟨zeroQEnc, "frontal", 1, 1⟩, ⟨zeroQEnc, "left_45", 1, 2⟩]

/-- Scanner state at the `right` stage with a captured front pose at yaw 10
and four stable frames already counted. -/
def c7State : ScannerState :=
  { currentAngle := .right, capturedPoseAngles := [(.front, 10)],
    poseStableCount := 4, lastDetectedAngle := 0 }

/-- A frame passing every quality check, at yaw 30 (exactly 20 degrees away
from the captured front pose). -/
def c7Frame : Frame :=
  { faceCount := 1, faceWidth := 200, faceHeight := 200, brightness := 120,
    sharpness := 100, hasLandmarks := true, yaw := 30 }

/-- A fresh scanner session at the `front` stage. -/
def c7StartState : ScannerState :=
  { currentAngle := .front, capturedPoseAngles := [], poseStableCount := 0,
    lastDetectedAngle := 0 }

/-- A frame passing every check for the `front` stage. -/
def c7GoodFrame : Frame :=
  { faceCount := 1, faceWidth := 200, faceHeight := 200, brightness := 120,
    sharpness := 100, hasLandmarks := true, yaw := 0 }

/-- Five consecutive good frames. -/
def c7FiveFrames : List Frame := List.replicate 5 c7GoodFrame

/-- An engine row at the query itself (distance 0), quality 1. -/
noncomputable def engRecW : EngineRecord :=
  { id := 1, personId := 5, angle := "frontal", qualityScore := 1,
    encodingArray := zeroEnc }

/-- An engine row at plain distance `1/2`, stored angle `frontal`. -/
noncomputable def engRec1 : EngineRecord :=
  { id := 1, personId := 10, angle := "frontal", qualityScore := 1/2,
    encodingArray := unitEnc (1/2) }

/-- An engine row at plain distance `12/25 < 1/2`, stored angle `left_45`. -/
noncomputable def engRec2 : EngineRecord :=
  { id := 2, personId := 20, angle := "left_45", qualityScore := 1/2,
    encodingArray := unitEnc (12/25) }

/-- An engine row for the multi-angle counterexample: person 1, quality
`1/5`, at `zeroEnc`. -/
noncomputable def c9Rec : EngineRecord :=
  { id := 1, personId := 1, angle := "frontal", qualityScore := 1/5,
    encodingArray := zeroEnc }

/-- Two query orientations: one at distance `0`, one at distance `2`. -/
noncomputable def c9Queries : List (String × Enc) :=
  [("frontal", zeroEnc), ("left_90", unitEnc 2)]

/-- The single ranked entry produced by `find_similar_faces` on a one-row
population at distance 0. -/
noncomputable def c10Entry : MatchEntry :=
  { personId := 5, distance := 0, confidence := distanceToConfidence 0,
    angle := "frontal", qualityScore := 1 }

/-! ## Helper lemmas: distances and `ℝ≥0∞` arithmetic -/

theorem faceDistance_self (a : Enc) : faceDistance a a = 0 := by
  simp [faceDistance]

theorem faceDistance_comm (a b : Enc) : faceDistance a b = faceDistance b a := by
  unfold faceDistance
  congr 1
  exact Finset.sum_congr rfl (fun i _ => by ring)

theorem faceDistance_unitEnc (c : ℝ) (h : 0 ≤ c) :
    faceDistance (unitEnc c) zeroEnc = c := by
  unfold faceDistance unitEnc zeroEnc
  have hsum : (∑ i : Fin 128, ((if i = 0 then c else 0) - 0) ^ 2) = c ^ 2 := by
    simp [apply_ite (fun x : ℝ => x ^ 2), Finset.sum_ite_eq']
  rw [hsum, Real.sqrt_sq h]

theorem ofReal_half : ENNReal.ofReal (1/2 : ℝ) = 1/2 := by
  rw [ENNReal.ofReal_div_of_pos (by norm_num)]
  simp

theorem confidencePercentage_top : confidencePercentage ⊤ = 0 := by
  unfold confidencePercentage
  rw [tsub_eq_zero_of_le le_top, zero_mul]

theorem confidencePercentage_zero : confidencePercentage 0 = 100 := by
  simp [confidencePercentage]

theorem confidencePercentage_half : confidencePercentage (1/2) = 50 := by
  unfold confidencePercentage
  rw [one_div, ENNReal.one_sub_inv_two]
  rw [show (100 : ℝ≥0∞) = 2 * 50 by norm_num, ← mul_assoc,
    ENNReal.inv_mul_cancel two_ne_zero (by norm_num), one_mul]

/-! ## Resolver evaluations -/

theorem bucketDistance_none (q : Enc) : bucketDistance none q = ⊤ := rfl

theorem bucketDistance_some (e q : Enc) :
    bucketDistance (some e) q = ENNReal.ofReal (faceDistance e q) := rfl

theorem finalDistance_centerHalf_none :
    finalDistance recCenterHalf zeroEnc none = 1/2 := by
  unfold finalDistance primaryDistance weightedDistance recCenterHalf
  simp only [bucketDistance_some, bucketDistance_none,
    faceDistance_unitEnc (1/2 : ℝ) (by norm_num), ofReal_half]
  simp [ENNReal.top_div]

theorem finalDistance_centerZero_none (c : Enc) :
    finalDistance ⟨some c, none, none⟩ c none = 0 := by
  unfold finalDistance primaryDistance weightedDistance
  simp only [bucketDistance_some, bucketDistance_none, faceDistance_self,
    ENNReal.ofReal_zero]
  simp [ENNReal.top_div]

theorem bestCandidate_singleton (pid : String) (rec : AngleEncodings) (q : Enc)
    (o : Option String) :
    bestCandidate [(pid, rec)] q o =
      if finalDistance rec q o < ⊤ then (some pid, finalDistance rec q o)
      else (none, ⊤) :=
  rfl

theorem minConfidenceRequired_default : minConfidenceRequired false 1 none = 40 := by
  simp [minConfidenceRequired, baseTolerance]
  norm_num

theorem minConfidenceRequired_sideProfile :
    minConfidenceRequired false 1 (some "left") = 37 := by
  simp [minConfidenceRequired, baseTolerance]
  norm_num

/-- Claim C1: the spec demands that no resolution reports a match below 70%
confidence.  The code instead *caps* `min_confidence_required` at 70
(`if min_confidence_required > 70: ... = 70`), so with the default tolerance
0.6 the computed requirement is 40%, and a query at distance `1/2` from the
only stored identity is reported as a match with confidence 50% < 70%. -/
theorem c1_match_reported_below_70 :
    (recognizeFaceMultiAngle storeC1 zeroEnc none false 1).isMatch = true ∧
    (recognizeFaceMultiAngle storeC1 zeroEnc none false 1).personId =
      some "person_0001" ∧
    (recognizeFaceMultiAngle storeC1 zeroEnc none false 1).confidence = 50 ∧
    minConfidenceRequired false 1 none = 40 ∧ (50 : ℝ≥0∞) < 70 := by
  have hlt : (1/2 : ℝ≥0∞) < ⊤ := ENNReal.div_lt_top (by norm_num) (by norm_num)
  have hrec : recognizeFaceMultiAngle storeC1 zeroEnc none false 1 =
      ⟨some "person_0001", 50, 1/2, true⟩ := by
    unfold recognizeFaceMultiAngle storeC1
    rw [if_neg (by simp), bestCandidate_singleton, finalDistance_centerHalf_none,
      if_pos hlt]
    rw [if_pos]
    · rw [confidencePercentage_half]
    · rw [confidencePercentage_half, minConfidenceRequired_default]
      norm_num
  rw [hrec]
  exact ⟨rfl, rfl, rfl, minConfidenceRequired_default, by norm_num⟩

theorem finalDistance_centerOnly_left (c q : Enc) :
    finalDistance ⟨some c, none, none⟩ q (some "left") = ⊤ := by
  unfold finalDistance primaryDistance weightedDistance
  simp only [bucketDistance_some, bucketDistance_none]
  simp [ENNReal.top_mul (show (6/10 : ℝ≥0∞) ≠ 0 by norm_num)]

/-- Claim C2 counterexample: an identity enrolled only at `center` is queried
with orientation hint `left` by the *identical* vector (distance 0); the claim
predicts a match with confidence tending to 100%, but the code computes
`primary = weighted = inf` and reports no match with confidence 0. -/
theorem c2_counterexample_center_only_left_query :
    (recognizeFaceMultiAngle storeC2 zeroEnc (some "left") false 1).personId = none ∧
    (recognizeFaceMultiAngle storeC2 zeroEnc (some "left") false 1).isMatch = false ∧
    (recognizeFaceMultiAngle storeC2 zeroEnc (some "left") false 1).confidence = 0 := by
  have hfin : finalDistance recCenterZero zeroEnc (some "left") = ⊤ := by
    unfold recCenterZero
    exact finalDistance_centerOnly_left zeroEnc zeroEnc
  have hrec : recognizeFaceMultiAngle storeC2 zeroEnc (some "left") false 1 =
      ⟨none, 0, ⊤, false⟩ := by
    unfold recognizeFaceMultiAngle storeC2
    rw [if_neg (by simp), bestCandidate_singleton, hfin, if_neg (lt_irrefl ⊤)]
    rw [if_neg]
    rw [confidencePercentage_top, minConfidenceRequired_sideProfile]
    norm_num
  rw [hrec]
  exact ⟨rfl, rfl, rfl⟩

/-- Claim C2 (amended): with a `left` orientation hint, an identity that
stores only a `center` embedding has final distance `inf` — both the primary
term (the empty left bucket) and the weighted term (which multiplies the
infinite left distance by 0.6) are infinite — so it can never match, however
close the vectors.  The `min(primary, weighted)` fallback preserves single-
bucket matchability only when the dominant bucket is populated or the
orientation is unknown: with no orientation hint the identical query does
match that identity at confidence 100%. -/
theorem c2_single_bucket_matchability :
    (∀ (c q : Enc), finalDistance ⟨some c, none, none⟩ q (some "left") = ⊤) ∧
    (∀ (pid : String) (c : Enc),
        recognizeFaceMultiAngle [(pid, ⟨some c, none, none⟩)] c none false 1 =
          ⟨some pid, 100, 0, true⟩) := by
  refine ⟨finalDistance_centerOnly_left, fun pid c => ?_⟩
  unfold recognizeFaceMultiAngle
  rw [if_neg (by simp), bestCandidate_singleton, finalDistance_centerZero_none,
    if_pos ENNReal.zero_lt_top,
    if_pos (by rw [confidencePercentage_zero, minConfidenceRequired_default]; norm_num),
    confidencePercentage_zero]

theorem bestCandidate_keep (store : List (String × AngleEncodings)) (query : Enc)
    (o : Option String) (acc : Option String × ℝ≥0∞)
    (h : ∀ pr ∈ store, ¬ finalDistance pr.2 query o < acc.2) :
    store.foldl
      (fun acc pr =>
        if finalDistance pr.2 query o < acc.2 then
          (some pr.1, finalDistance pr.2 query o)
        else acc) acc = acc := by
  induction store with
  | nil => rfl
  | cons hd tl ih =>
      rw [List.foldl_cons, if_neg (h hd (List.mem_cons_self hd tl))]
      exact ih (fun pr hpr => h pr (List.mem_cons_of_mem hd hpr))

theorem bestCandidate_reach (store : List (String × AngleEncodings)) (query : Enc)
    (o : Option String) (target : String × AngleEncodings) :
    ∀ acc : Option String × ℝ≥0∞, target ∈ store →
    (∀ pr ∈ store, pr ≠ target →
      finalDistance target.2 query o < finalDistance pr.2 query o) →
    finalDistance target.2 query o < acc.2 →
    store.foldl
      (fun acc pr =>
        if finalDistance pr.2 query o < acc.2 then
          (some pr.1, finalDistance pr.2 query o)
        else acc) acc = (some target.1, finalDistance target.2 query o) := by
  induction store with
  | nil => exact fun acc hmem _ _ => absurd hmem (List.not_mem_nil _)
  | cons hd tl ih =>
      intro acc hmem hmin hacc
      rw [List.foldl_cons]
      by_cases hhd : hd = target
      · subst hhd
        rw [if_pos hacc]
        apply bestCandidate_keep
        intro pr hpr
        by_cases hpr' : pr = hd
        · subst hpr'
          exact lt_irrefl _
        · exact lt_asymm (hmin pr (List.mem_cons_of_mem hd hpr) hpr')
      · have hmem' : target ∈ tl := by
          rcases List.mem_cons.mp hmem with h | h
          · exact absurd h.symm hhd
          · exact h
        have hmin' : ∀ pr ∈ tl, pr ≠ target →
            finalDistance target.2 query o < finalDistance pr.2 query o :=
          fun pr hpr hne => hmin pr (List.mem_cons_of_mem hd hpr) hne
        have hlt : finalDistance target.2 query o < finalDistance hd.2 query o :=
          hmin hd (List.mem_cons_self hd tl) hhd
        by_cases hcond : finalDistance hd.2 query o < acc.2
        · rw [if_pos hcond]
          exact ih (some hd.1, finalDistance hd.2 query o) hmem' hmin' hlt
        · rw [if_neg hcond]
          exact ih acc hmem' hmin' hacc

/-- Claim C3: the resolver computes per-bucket distances (missing buckets
contributing `inf`), combines them with the documented orientation weights
(0.6/0.2/0.2 for `center`, 0.6/0.3/0.1 for `left`/`angle_left` and
symmetrically for `right`/`angle_right`, the mean of the three for an unknown
orientation), takes `final = min(primary, weighted)` with `primary` the
dominant-bucket distance (the minimum of the three when unknown), and the
identity with the strictly smallest finite final distance is the candidate. -/
theorem c3_weighted_min_combination :
    (∀ q : Enc, bucketDistance none q = ⊤) ∧
    (∀ (rec : AngleEncodings) (q : Enc),
        finalDistance rec q (some "center") =
          min (bucketDistance rec.center q)
            (bucketDistance rec.center q * (6/10) + bucketDistance rec.left q * (2/10) +
              bucketDistance rec.right q * (2/10))) ∧
    (∀ (rec : AngleEncodings) (q : Enc) (o : Option String),
        o = some "left" ∨ o = some "angle_left" →
        finalDistance rec q o =
          min (bucketDistance rec.left q)
            (bucketDistance rec.left q * (6/10) + bucketDistance rec.center q * (3/10) +
              bucketDistance rec.right q * (1/10))) ∧
    (∀ (rec : AngleEncodings) (q : Enc) (o : Option String),
        o = some "right" ∨ o = some "angle_right" →
        finalDistance rec q o =
          min (bucketDistance rec.right q)
            (bucketDistance rec.right q * (6/10) + bucketDistance rec.center q * (3/10) +
              bucketDistance rec.left q * (1/10))) ∧
    (∀ (rec : AngleEncodings) (q : Enc),
        finalDistance rec q none =
          min (min (bucketDistance rec.center q)
              (min (bucketDistance rec.left q) (bucketDistance rec.right q)))
            ((bucketDistance rec.center q + bucketDistance rec.left q +
              bucketDistance rec.right q) / 3)) ∧
    (∀ (store : List (String × AngleEncodings)) (q : Enc) (o : Option String)
        (target : String × AngleEncodings),
        target ∈ store → finalDistance target.2 q o ≠ ⊤ →
        (∀ pr ∈ store, pr ≠ target →
          finalDistance target.2 q o < finalDistance pr.2 q o) →
        bestCandidate store q o = (some target.1, finalDistance target.2 q o)) := by
  refine ⟨fun _ => rfl, ?_, ?_, ?_, ?_, ?_⟩
  · intro rec q
    unfold finalDistance primaryDistance weightedDistance
    simp
  · rintro rec q o (rfl | rfl) <;>
      · unfold finalDistance primaryDistance weightedDistance
        simp
  · rintro rec q o (rfl | rfl) <;>
      · unfold finalDistance primaryDistance weightedDistance
        simp
  · intro rec q
    unfold finalDistance primaryDistance weightedDistance
    simp
  · intro store q o target hmem hne hmin
    exact bestCandidate_reach store q o target (none, ⊤) hmem hmin
      (lt_top_iff_ne_top.mpr hne)

/-- Witness for C3: on a two-identity store (distances `0` and `1/2` from the
query, no orientation hint), the selection clause applies and the candidate is
the identity at distance `0`. -/
theorem c3_witness :
    ("person_0001", recCenterZero) ∈ storeC3 ∧
    finalDistance recCenterZero zeroEnc none ≠ ⊤ ∧
    bestCandidate storeC3 zeroEnc none =
      (some "person_0001", finalDistance recCenterZero zeroEnc none) := by
  have hfin0 : finalDistance recCenterZero zeroEnc none = 0 := by
    unfold recCenterZero
    exact finalDistance_centerZero_none zeroEnc
  have hmem : ("person_0001", recCenterZero) ∈ storeC3 := by
    simp [storeC3]
  have hne : finalDistance recCenterZero zeroEnc none ≠ ⊤ := by
    rw [hfin0]
    exact ENNReal.zero_ne_top
  refine ⟨hmem, hne, c3_weighted_min_combination.2.2.2.2.2 storeC3 zeroEnc none
    ("person_0001", recCenterZero) hmem hne ?_⟩
  intro pr hpr hprne
  rcases List.mem_cons.mp hpr with h | h
  · exact absurd h hprne
  · have h2 : pr = ("person_0002", recCenterHalf) := by
      simpa [storeC3] using h
    subst h2
    rw [hfin0]
    show (0 : ℝ≥0∞) < finalDistance recCenterHalf zeroEnc none
    rw [finalDistance_centerHalf_none]
    exact ENNReal.div_pos one_ne_zero (by norm_num)

/-! ## Store lemmas and claims C4 to C6 -/

theorem updatePrimaryEncoding_length (s : PersonStore) :
    (updatePrimaryEncoding s).records.length = s.records.length := by
  unfold updatePrimaryEncoding
  simp only []
  split <;> simp [clearPrimary]

theorem insertEncoding_length (s : PersonStore) (e : Fin 128 → ℚ) (a : String)
    (q : ℚ) (fd : ℕ) :
    ((insertEncoding s e a q fd).1).records.length = s.records.length + 1 := by
  unfold insertEncoding
  rw [updatePrimaryEncoding_length]
  simp

theorem getLowestQuality_mem_aux (l : List EncodingRecord) :
    ∀ (acc : Option EncodingRecord) (r : EncodingRecord),
      l.foldl
        (fun acc r =>
          match acc with
          | none => some r
          | some b => if r.quality < b.quality then some r else some b) acc = some r →
      r ∈ l ∨ acc = some r := by
  induction l with
  | nil => exact fun acc r h => Or.inr h
  | cons hd tl ih =>
      intro acc r h
      rw [List.foldl_cons] at h
      rcases ih _ r h with hm | he
      · exact Or.inl (List.mem_cons_of_mem hd hm)
      · cases acc with
        | none =>
            simp only [Option.some.injEq] at he
            exact Or.inl (he ▸ List.mem_cons_self hd tl)
        | some b =>
            simp only at he
            split_ifs at he with hq
            · simp only [Option.some.injEq] at he
              exact Or.inl (he ▸ List.mem_cons_self hd tl)
            · exact Or.inr he

theorem getLowestQualityEncoding_mem (s : PersonStore) (r : EncodingRecord)
    (h : getLowestQualityEncoding s = some r) : r ∈ s.records := by
  rcases getLowestQuality_mem_aux s.records none r h with hm | he
  · exact hm
  · exact absurd he (by simp)

theorem deleteEncoding_length_lt (s : PersonStore) (r : EncodingRecord)
    (hmem : r ∈ s.records) :
    ((deleteEncoding s r.id).records).length < s.records.length := by
  unfold deleteEncoding
  exact List.length_filter_lt_length_iff_exists.mpr ⟨r, hmem, by simp⟩

theorem addFaceEncoding_length_le (s : PersonStore) (e : Fin 128 → ℚ) (a : String)
    (q : ℚ) (fd : ℕ) (h : s.records.length ≤ 5) :
    ((addFaceEncoding s e a q fd).1).records.length ≤ 5 := by
  unfold addFaceEncoding
  split
  · split
    next ex hex =>
      split_ifs with hq
      · rw [insertEncoding_length]
        have := deleteEncoding_length_lt s ex (List.mem_of_find?_eq_some hex)
        omega
      · exact h
    next hex =>
      split
      next low hlow =>
        split_ifs with hq
        · rw [insertEncoding_length]
          have := deleteEncoding_length_lt s low (getLowestQualityEncoding_mem s low hlow)
          omega
        · exact h
      next hlow => exact h
  · next hfull =>
      rw [insertEncoding_length]
      have : getEncodingCount s = s.records.length := rfl
      omega

theorem runCalls_length_le (calls : List UpsertCall) :
    ∀ s : PersonStore, s.records.length ≤ 5 →
      (runCalls s calls).records.length ≤ 5 := by
  induction calls with
  | nil => exact fun s h => h
  | cons c cs ih =>
      intro s h
      exact ih _ (addFaceEncoding_length_le s c.encoding c.angle c.quality
        c.faceDetectionId h)

/-- Claim C4: starting from an empty store, after any sequence of
`add_face_encoding` upserts a person never holds more than 5 embedding rows
(below capacity the insert is unconditional; at capacity a row is inserted
only after deleting the same-angle or globally-lowest-quality row, or the call
is rejected, so the count never grows past 5). -/
theorem c4_bounded_storage (calls : List UpsertCall) :
    (runCalls emptyPersonStore calls).records.length ≤ 5 :=
  runCalls_length_le calls emptyPersonStore (by simp [emptyPersonStore])

/-- Claim C5 counterexample: an identity holding a single `frontal` row of
quality 0.9 receives a same-angle upsert of *lower* quality 0.5; the claim
predicts a rejection leaving the store unchanged, but the code only performs
the quality comparison at capacity (`existing_count >= 5`), so the new row is
inserted and the store grows to 2 rows. -/
theorem c5_counterexample_below_capacity_insert :
    (addFaceEncoding c5SmallStore zeroQEnc "frontal" (1/2) 7).2 =
      UpsertResult.accepted 2 ∧
    ((addFaceEncoding c5SmallStore zeroQEnc "frontal" (1/2) 7).1).records.length = 2 :=
  ⟨rfl, rfl⟩

/-- Claim C5 (amended): only when the identity is at capacity (5 or more
rows) is a same-orientation upsert with quality less than or equal to the
existing row's rejected; in that case the call returns the existing row's id
and leaves the store completely unchanged.  Below capacity the upsert inserts
unconditionally. -/
theorem c5_at_capacity_same_angle_reject (s : PersonStore) (e : Fin 128 → ℚ)
    (a : String) (q : ℚ) (fd : ℕ) (ex : EncodingRecord)
    (hfull : 5 ≤ s.records.length)
    (hex : getEncodingByAngle s a = some ex)
    (hq : q ≤ ex.quality) :
    addFaceEncoding s e a q fd = (s, .rejectedSameAngle ex.id) := by
  have hfull' : 5 ≤ getEncodingCount s := hfull
  unfold addFaceEncoding
  rw [if_pos hfull']
  simp only [hex]
  rw [if_neg (not_lt.mpr hq)]

/-- Witness for C5: the amended rejection clause applies to a concrete
at-capacity store. -/
theorem c5_witness :
    5 ≤ c5FullStore.records.length ∧
    getEncodingByAngle c5FullStore "frontal" = some (dbRec 1 1 "frontal" (9/10) true) ∧
    (1/2 : ℚ) ≤ (dbRec 1 1 "frontal" (9/10) true).quality ∧
    addFaceEncoding c5FullStore zeroQEnc "frontal" (1/2) 7 =
      (c5FullStore, .rejectedSameAngle 1) := by
  have h1 : 5 ≤ c5FullStore.records.length := by norm_num [c5FullStore]
  have h2 : getEncodingByAngle c5FullStore "frontal" =
      some (dbRec 1 1 "frontal" (9/10) true) := rfl
  have h3 : (1/2 : ℚ) ≤ (dbRec 1 1 "frontal" (9/10) true).quality := by
    norm_num [dbRec]
  exact ⟨h1, h2, h3, c5_at_capacity_same_angle_reject c5FullStore zeroQEnc "frontal"
    (1/2) 7 (dbRec 1 1 "frontal" (9/10) true) h1 h2 h3⟩

theorem topFold_split (t : List EncodingRecord) :
    ∀ r : EncodingRecord,
      (t.foldl (fun b x => if b.quality < x.quality then x else b) r = r ∧
        ∀ x ∈ t, x.quality ≤ r.quality) ∨
      ∃ t1 x t2, t = t1 ++ x :: t2 ∧
        t.foldl (fun b x => if b.quality < x.quality then x else b) r = x ∧
        r.quality < x.quality ∧ (∀ y ∈ t1, y.quality < x.quality) ∧
        (∀ y ∈ t2, y.quality ≤ x.quality) := by
  induction t with
  | nil => exact fun r => Or.inl ⟨rfl, by simp⟩
  | cons a t ih =>
      intro r
      rw [List.foldl_cons]
      by_cases hq : r.quality < a.quality
      · rw [if_pos hq]
        rcases ih a with ⟨hfold, hall⟩ | ⟨t1, x, t2, hsplit, hfold, hlt, h1, h2⟩
        · exact Or.inr ⟨[], a, t, by simp, hfold, hq, by simp, hall⟩
        · refine Or.inr ⟨a :: t1, x, t2, by rw [hsplit]; rfl, hfold,
            lt_trans hq hlt, ?_, h2⟩
          intro y hy
          rcases List.mem_cons.mp hy with rfl | hy'
          · exact hlt
          · exact h1 y hy'
      · rw [if_neg hq]
        rcases ih r with ⟨hfold, hall⟩ | ⟨t1, x, t2, hsplit, hfold, hlt, h1, h2⟩
        · refine Or.inl ⟨hfold, ?_⟩
          intro y hy
          rcases List.mem_cons.mp hy with rfl | hy'
          · exact not_lt.mp hq
          · exact hall y hy'
        · refine Or.inr ⟨a :: t1, x, t2, by rw [hsplit]; rfl, hfold, hlt, ?_, h2⟩
          intro y hy
          rcases List.mem_cons.mp hy with rfl | hy'
          · exact lt_of_le_of_lt (not_lt.mp hq) hlt
          · exact h1 y hy'

theorem topQuality_split (l : List EncodingRecord) (hne : l ≠ []) :
    ∃ C1 m C2, l = C1 ++ m :: C2 ∧ topQuality l = some m ∧
      (∀ y ∈ C1, y.quality < m.quality) ∧ (∀ y ∈ C2, y.quality ≤ m.quality) := by
  match l, hne with
  | r :: t, _ =>
      rcases topFold_split t r with ⟨hfold, hall⟩ | ⟨t1, x, t2, hsplit, hfold, hlt, h1, h2⟩
      · exact ⟨[], r, t, by simp, by simp [topQuality, hfold], by simp, hall⟩
      · refine ⟨r :: t1, x, t2, by rw [hsplit]; rfl,
          by simp [topQuality, hfold], ?_, h2⟩
        intro y hy
        rcases List.mem_cons.mp hy with rfl | hy'
        · exact hlt
        · exact h1 y hy'

theorem clearPrimary_ids (l : List EncodingRecord) :
    (clearPrimary l).map (fun r => r.id) = l.map (fun r => r.id) := by
  simp [clearPrimary, List.map_map]

theorem clearPrimary_flag (l : List EncodingRecord) :
    ∀ r ∈ clearPrimary l, r.isPrimary = false := by
  intro r hr
  rcases List.mem_map.mp hr with ⟨r0, _, rfl⟩
  rfl

theorem filter_id_eq_length_one {l : List ℕ} (hnd : l.Nodup) {a : ℕ} (ha : a ∈ l) :
    (l.filter (fun i => decide (i = a))).length = 1 := by
  induction l with
  | nil => cases ha
  | cons b t ih =>
      rcases List.mem_cons.mp ha with rfl | hat
      · have hnot : a ∉ t := (List.nodup_cons.mp hnd).1
        rw [List.filter_cons_of_pos (by simp)]
        have : t.filter (fun i => decide (i = a)) = [] := by
          apply List.filter_eq_nil_iff.mpr
          intro x hx
          simp only [decide_eq_true_eq]
          exact fun he => hnot (he ▸ hx)
        simp [this]
      · have hba : ¬ (b = a) := by
          intro he
          exact (List.nodup_cons.mp hnd).1 (he ▸ hat)
        rw [List.filter_cons_of_neg (by simpa using hba)]
        exact ih (List.nodup_cons.mp hnd).2 hat

theorem updatePrimaryEncoding_spec (s : PersonStore) (hne : s.records ≠ [])
    (hnd : (s.records.map (fun r => r.id)).Nodup) :
    ((updatePrimaryEncoding s).records.filter (fun r => r.isPrimary)).length = 1 ∧
    ∃ l1 p l2, (updatePrimaryEncoding s).records = l1 ++ p :: l2 ∧
      p.isPrimary = true ∧ (∀ x ∈ l1, x.quality < p.quality) ∧
      (∀ x ∈ l2, x.quality ≤ p.quality) := by
  have hcne : clearPrimary s.records ≠ [] := by
    unfold clearPrimary
    intro h
    exact hne (List.map_eq_nil_iff.mp h)
  obtain ⟨C1, m, C2, hsplit, htop, h1, h2⟩ :=
    topQuality_split (clearPrimary s.records) hcne
  have hupd : (updatePrimaryEncoding s).records =
      (clearPrimary s.records).map
        (fun r => if r.id = m.id then { r with isPrimary := true } else r) := by
    unfold updatePrimaryEncoding
    simp only [htop]
  constructor
  · rw [hupd, List.filter_map, List.length_map]
    have hcong : (clearPrimary s.records).filter
        ((fun r => r.isPrimary) ∘
          (fun r => if r.id = m.id then { r with isPrimary := true } else r)) =
        (clearPrimary s.records).filter (fun r => decide (r.id = m.id)) := by
      apply List.filter_congr
      intro x hx
      by_cases hid : x.id = m.id
      · simp [Function.comp, hid]
      · simp [Function.comp, hid, clearPrimary_flag _ x hx]
    rw [hcong]
    have hlen : ((clearPrimary s.records).filter
        (fun r => decide (r.id = m.id))).length =
        (((clearPrimary s.records).map (fun r => r.id)).filter
          (fun i => decide (i = m.id))).length := by
      rw [List.filter_map, List.length_map]
      rfl
    rw [hlen, clearPrimary_ids]
    have hm : m ∈ clearPrimary s.records := by
      rw [hsplit]
      exact List.mem_append_right _ (List.mem_cons_self _ _)
    have hmid : m.id ∈ (clearPrimary s.records).map (fun r => r.id) :=
      List.mem_map_of_mem _ hm
    rw [clearPrimary_ids] at hmid
    exact filter_id_eq_length_one hnd hmid
  · refine ⟨C1.map (fun r => if r.id = m.id then { r with isPrimary := true } else r),
      { m with isPrimary := true },
      C2.map (fun r => if r.id = m.id then { r with isPrimary := true } else r),
      ?_, rfl, ?_, ?_⟩
    · rw [hupd, hsplit, List.map_append, List.map_cons, if_pos rfl]
    · intro x hx
      rcases List.mem_map.mp hx with ⟨y, hy, rfl⟩
      have hqy : (if y.id = m.id then { y with isPrimary := true } else y).quality =
          y.quality := by
        split <;> rfl
      rw [hqy]
      exact h1 y hy
    · intro x hx
      rcases List.mem_map.mp hx with ⟨y, hy, rfl⟩
      have hqy : (if y.id = m.id then { y with isPrimary := true } else y).quality =
          y.quality := by
        split <;> rfl
      rw [hqy]
      exact h2 y hy

theorem insertEncoding_spec (s0 : PersonStore) (e : Fin 128 → ℚ) (a : String)
    (q : ℚ) (fd : ℕ)
    (hnd : (s0.records.map (fun r => r.id)).Nodup)
    (hfresh : ∀ r ∈ s0.records, r.id < s0.nextId) :
    (((insertEncoding s0 e a q fd).1).records.filter (fun r => r.isPrimary)).length = 1 ∧
    ∃ l1 p l2, ((insertEncoding s0 e a q fd).1).records = l1 ++ p :: l2 ∧
      p.isPrimary = true ∧ (∀ x ∈ l1, x.quality < p.quality) ∧
      (∀ x ∈ l2, x.quality ≤ p.quality) := by
  unfold insertEncoding
  apply updatePrimaryEncoding_spec
  · simp
  · rw [List.map_append]
    apply List.Nodup.append hnd (by simp)
    rw [List.map_singleton, List.disjoint_singleton]
    intro hmem
    rcases List.mem_map.mp hmem with ⟨r, hr, hid⟩
    exact absurd hid (Nat.ne_of_lt (hfresh r hr))

theorem deleteEncoding_nodup (s : PersonStore) (i : ℕ)
    (hnd : (s.records.map (fun r => r.id)).Nodup) :
    ((deleteEncoding s i).records.map (fun r => r.id)).Nodup := by
  unfold deleteEncoding
  exact ((List.filter_sublist s.records).map (fun r => r.id)).nodup hnd

theorem deleteEncoding_fresh (s : PersonStore) (i : ℕ)
    (hfresh : ∀ r ∈ s.records, r.id < s.nextId) :
    ∀ r ∈ (deleteEncoding s i).records, r.id < (deleteEncoding s i).nextId := by
  intro r hr
  exact hfresh r (List.mem_of_mem_filter hr)

/-- Claim C6 (amended): after every successful (mutating) `add_face_encoding`
call on a store with distinct row ids and a fresh auto-increment counter,
exactly one row carries the primary flag and its quality is maximal among the
person's rows; ties on the maximal quality are broken in favour of the
*earliest-inserted* row (the `ORDER BY quality_score DESC LIMIT 1` scan in id
order keeps the first maximal row), not the most-recently-inserted one. -/
theorem c6_primary_unique_max (s : PersonStore) (e : Fin 128 → ℚ) (a : String)
    (q : ℚ) (fd : ℕ) (s' : PersonStore) (newId : ℕ)
    (hnd : (s.records.map (fun r => r.id)).Nodup)
    (hfresh : ∀ r ∈ s.records, r.id < s.nextId)
    (hacc : addFaceEncoding s e a q fd = (s', .accepted newId)) :
    (s'.records.filter (fun r => r.isPrimary)).length = 1 ∧
    ∃ l1 p l2, s'.records = l1 ++ p :: l2 ∧ p.isPrimary = true ∧
      (∀ x ∈ l1, x.quality < p.quality) ∧ (∀ x ∈ l2, x.quality ≤ p.quality) := by
  unfold addFaceEncoding at hacc
  split at hacc
  · split at hacc
    next ex hex =>
      split_ifs at hacc with hq
      · have hs' : s' = (insertEncoding (deleteEncoding s ex.id) e a q fd).1 :=
          (congrArg Prod.fst hacc).symm
        rw [hs']
        exact insertEncoding_spec _ e a q fd
          (deleteEncoding_nodup s ex.id hnd) (deleteEncoding_fresh s ex.id hfresh)
      · exact absurd (congrArg Prod.snd hacc) (by simp)
    next hex =>
      split at hacc
      next low hlow =>
        split_ifs at hacc with hq
        · have hs' : s' = (insertEncoding (deleteEncoding s low.id) e a q fd).1 :=
            (congrArg Prod.fst hacc).symm
          rw [hs']
          exact insertEncoding_spec _ e a q fd
            (deleteEncoding_nodup s low.id hnd) (deleteEncoding_fresh s low.id hfresh)
        · exact absurd (congrArg Prod.snd hacc) (by simp)
      next hlow => exact absurd (congrArg Prod.snd hacc) (by simp)
  · have hs' : s' = (insertEncoding s e a q fd).1 := (congrArg Prod.fst hacc).symm
    rw [hs']
    exact insertEncoding_spec s e a q fd hnd hfresh

/-- Claim C6 counterexample: two upserts with *equal* quality 1.  The claim
says the quality tie is broken in favour of the most-recently-inserted row
(id 2), but the `ORDER BY quality_score DESC LIMIT 1` scan keeps the first
maximal row in id order, so the earliest row (id 1) stays primary. -/
theorem c6_counterexample_tie_prefers_earliest :
    (runCalls emptyPersonStore c6Calls).records.map
        (fun r => (r.id, r.quality, r.isPrimary)) =
      [(1, 1, true), (2, 1, false)] := rfl

/-- Witness for C6: the amended invariant applied to the very first upsert on
an empty store. -/
theorem c6_witness :
    ((addFaceEncoding emptyPersonStore zeroQEnc "frontal" (1/2) 1).1.records.filter
        (fun r => r.isPrimary)).length = 1 ∧
    ∃ l1 p l2,
      (addFaceEncoding emptyPersonStore zeroQEnc "frontal" (1/2) 1).1.records =
        l1 ++ p :: l2 ∧ p.isPrimary = true ∧
      (∀ x ∈ l1, x.quality < p.quality) ∧ (∀ x ∈ l2, x.quality ≤ p.quality) :=
  c6_primary_unique_max emptyPersonStore zeroQEnc "frontal" (1/2) 1 _ 1
    (by simp [emptyPersonStore]) (by simp [emptyPersonStore]) rfl

/-! ## Scanner lemmas and claim C7 -/

theorem detectFaceInFrame_pass (st : ScannerState) (f : Frame)
    (h : passesAllChecks st.currentAngle st.capturedPoseAngles f) :
    detectFaceInFrame st f =
      (decide (5 ≤ st.poseStableCount + 1),
        { st with lastDetectedAngle := f.yaw,
                  poseStableCount := st.poseStableCount + 1 }) := by
  obtain ⟨h1, h2, h3, h4, h5, h6, h7, h8, h9, h10, h11, h12⟩ := h
  unfold detectFaceInFrame
  rw [if_neg (by omega), if_neg (by omega), if_neg (by omega), if_neg (by omega),
    if_neg (not_lt.mpr h6), if_neg (not_lt.mpr h7), if_neg (not_lt.mpr h8),
    if_neg (by simp [h9])]
  simp only []
  rw [if_pos ⟨h10, h11⟩,
    if_neg (fun ⟨p, hp, hlt⟩ => absurd hlt (not_lt.mpr (h12 p hp)))]
  by_cases h5c : st.poseStableCount + 1 < 5
  · rw [if_pos h5c]
    simp [show ¬ 5 ≤ st.poseStableCount + 1 from by omega]
  · rw [if_neg h5c]
    simp [show 5 ≤ st.poseStableCount + 1 from by omega]

theorem detectFaceInFrame_fail (st : ScannerState) (f : Frame)
    (hn : ¬ passesAllChecks st.currentAngle st.capturedPoseAngles f) :
    (detectFaceInFrame st f).1 = false ∧
    (detectFaceInFrame st f).2.poseStableCount = 0 ∧
    (detectFaceInFrame st f).2.currentAngle = st.currentAngle ∧
    (detectFaceInFrame st f).2.capturedPoseAngles = st.capturedPoseAngles := by
  by_cases g1 : f.faceCount = 0
  · unfold detectFaceInFrame
    rw [if_pos g1]
    exact ⟨rfl, rfl, rfl, rfl⟩
  by_cases g2 : 1 < f.faceCount
  · unfold detectFaceInFrame
    rw [if_neg g1, if_pos g2]
    exact ⟨rfl, rfl, rfl, rfl⟩
  by_cases g3 : f.faceWidth < 100 ∨ f.faceHeight < 100
  · unfold detectFaceInFrame
    rw [if_neg g1, if_neg g2, if_pos g3]
    exact ⟨rfl, rfl, rfl, rfl⟩
  by_cases g4 : 800 < f.faceWidth ∨ 800 < f.faceHeight
  · unfold detectFaceInFrame
    rw [if_neg g1, if_neg g2, if_neg g3, if_pos g4]
    exact ⟨rfl, rfl, rfl, rfl⟩
  by_cases g5 : f.brightness < 40
  · unfold detectFaceInFrame
    rw [if_neg g1, if_neg g2, if_neg g3, if_neg g4, if_pos g5]
    exact ⟨rfl, rfl, rfl, rfl⟩
  by_cases g6 : 220 < f.brightness
  · unfold detectFaceInFrame
    rw [if_neg g1, if_neg g2, if_neg g3, if_neg g4, if_neg g5, if_pos g6]
    exact ⟨rfl, rfl, rfl, rfl⟩
  by_cases g7 : f.sharpness < 50
  · unfold detectFaceInFrame
    rw [if_neg g1, if_neg g2, if_neg g3, if_neg g4, if_neg g5, if_neg g6, if_pos g7]
    exact ⟨rfl, rfl, rfl, rfl⟩
  by_cases g8 : f.hasLandmarks = false
  · unfold detectFaceInFrame
    rw [if_neg g1, if_neg g2, if_neg g3, if_neg g4, if_neg g5, if_neg g6, if_neg g7,
      if_pos g8]
    exact ⟨rfl, rfl, rfl, rfl⟩
  by_cases g9 : (angleRange st.currentAngle).1 ≤ f.yaw ∧
      f.yaw ≤ (angleRange st.currentAngle).2
  · by_cases g10 : ∃ p ∈ st.capturedPoseAngles, |f.yaw - p.2| < 20
    · unfold detectFaceInFrame
      rw [if_neg g1, if_neg g2, if_neg g3, if_neg g4, if_neg g5, if_neg g6, if_neg g7,
        if_neg g8]
      simp only []
      rw [if_pos g9, if_pos g10]
      exact ⟨rfl, rfl, rfl, rfl⟩
    · exfalso
      apply hn
      rw [not_or] at g3 g4
      refine ⟨by omega, by omega, by omega, by omega, by omega,
        not_lt.mp g5, not_lt.mp g6, not_lt.mp g7, by simpa using g8,
        g9.1, g9.2, ?_⟩
      intro p hp
      by_contra hc
      rw [not_le] at hc
      exact g10 ⟨p, hp, hc⟩
  · unfold detectFaceInFrame
    rw [if_neg g1, if_neg g2, if_neg g3, if_neg g4, if_neg g5, if_neg g6, if_neg g7,
      if_neg g8]
    simp only []
    rw [if_neg g9]
    exact ⟨rfl, rfl, rfl, rfl⟩

theorem detectFaceInFrame_preserves (st : ScannerState) (f : Frame) :
    (detectFaceInFrame st f).2.currentAngle = st.currentAngle ∧
    (detectFaceInFrame st f).2.capturedPoseAngles = st.capturedPoseAngles := by
  by_cases hp : passesAllChecks st.currentAngle st.capturedPoseAngles f
  · rw [detectFaceInFrame_pass st f hp]
    exact ⟨rfl, rfl⟩
  · exact ⟨(detectFaceInFrame_fail st f hp).2.2.1,
      (detectFaceInFrame_fail st f hp).2.2.2⟩

theorem runFrames_append (st : ScannerState) (fs : List Frame) (f : Frame) :
    runFrames st (fs ++ [f]) = detectFaceInFrame (runFrames st fs).2 f := by
  unfold runFrames
  rw [List.foldl_append]
  rfl

theorem runFrames_preserves (st : ScannerState) (fs : List Frame) :
    (runFrames st fs).2.currentAngle = st.currentAngle ∧
    (runFrames st fs).2.capturedPoseAngles = st.capturedPoseAngles := by
  induction fs using List.reverseRecOn with
  | nil => exact ⟨rfl, rfl⟩
  | append_singleton fs f ih =>
      rw [runFrames_append]
      have hp := detectFaceInFrame_preserves (runFrames st fs).2 f
      exact ⟨hp.1.trans ih.1, hp.2.trans ih.2⟩

theorem runFrames_count_le (st : ScannerState) (fs : List Frame) :
    (runFrames st fs).2.poseStableCount ≤ st.poseStableCount + fs.length := by
  induction fs using List.reverseRecOn with
  | nil => simp [runFrames]
  | append_singleton fs f ih =>
      rw [runFrames_append]
      by_cases hp : passesAllChecks (runFrames st fs).2.currentAngle
          (runFrames st fs).2.capturedPoseAngles f
      · rw [detectFaceInFrame_pass _ f hp]
        show (runFrames st fs).2.poseStableCount + 1 ≤
          st.poseStableCount + (fs ++ [f]).length
        simp only [List.length_append, List.length_cons, List.length_nil]
        omega
      · rw [(detectFaceInFrame_fail _ f hp).2.1]
        exact Nat.zero_le _

theorem runFrames_count_passes (st : ScannerState) (fs : List Frame) :
    ∀ j, j ≤ (runFrames st fs).2.poseStableCount → j ≤ fs.length →
      ∀ g ∈ fs.drop (fs.length - j),
        passesAllChecks st.currentAngle st.capturedPoseAngles g := by
  induction fs using List.reverseRecOn with
  | nil =>
      intro j _ _ g hg
      simp at hg
  | append_singleton fs f ih =>
      intro j hj hlen g hg
      rcases Nat.eq_zero_or_pos j with rfl | hjpos
      · rw [Nat.sub_zero, List.drop_length] at hg
        simp at hg
      · rw [runFrames_append] at hj
        have hpres := runFrames_preserves st fs
        by_cases hp : passesAllChecks (runFrames st fs).2.currentAngle
            (runFrames st fs).2.capturedPoseAngles f
        · have hcount : (detectFaceInFrame (runFrames st fs).2 f).2.poseStableCount =
              (runFrames st fs).2.poseStableCount + 1 := by
            rw [detectFaceInFrame_pass _ f hp]
          rw [hcount] at hj
          have hlf : (fs ++ [f]).length = fs.length + 1 := by simp
          have hlen' : j ≤ fs.length + 1 := by rw [hlf] at hlen; exact hlen
          have hdrop : (fs ++ [f]).drop ((fs ++ [f]).length - j) =
              fs.drop (fs.length - (j - 1)) ++ [f] := by
            rw [hlf, show fs.length + 1 - j = fs.length - (j - 1) from by omega,
              List.drop_append_of_le_length (by omega)]
          rw [hdrop] at hg
          rcases List.mem_append.mp hg with hg' | hg'
          · exact ih (j - 1) (by omega) (by omega) g hg'
          · have hgf : g = f := by simpa using hg'
            subst hgf
            rwa [hpres.1, hpres.2] at hp
        · rw [(detectFaceInFrame_fail _ f hp).2.1] at hj
          omega

/-- Claim C7 (amended): a frame is accepted only if its yaw lies in the current
stage's inclusive target range (front `[-15, 15]`, left `[-90, -25]`, right
`[25, 90]`), its yaw differs by *at least* 20 degrees from every captured pose
(the code rejects only differences strictly below 20, so a difference of
exactly 20 degrees is accepted — not strictly more than 20 as claimed), and
the pose has passed every check for 5 consecutive evaluated frames; any failed
check resets the stability counter to zero. -/
theorem c7_pose_gating :
    (∀ (st : ScannerState) (f : Frame), (detectFaceInFrame st f).1 = true →
      (angleRange st.currentAngle).1 ≤ f.yaw ∧ f.yaw ≤ (angleRange st.currentAngle).2 ∧
      (∀ p ∈ st.capturedPoseAngles, 20 ≤ |f.yaw - p.2|) ∧
      5 ≤ st.poseStableCount + 1) ∧
    (∀ (st : ScannerState) (f : Frame),
      ¬ passesAllChecks st.currentAngle st.capturedPoseAngles f →
      (detectFaceInFrame st f).1 = false ∧
      (detectFaceInFrame st f).2.poseStableCount = 0) ∧
    (∀ (st : ScannerState) (frames : List Frame),
      st.poseStableCount = 0 → (runFrames st frames).1 = true →
      5 ≤ frames.length ∧
      ∀ g ∈ frames.drop (frames.length - 5),
        passesAllChecks st.currentAngle st.capturedPoseAngles g) := by
  refine ⟨?_, ?_, ?_⟩
  · intro st f hacc
    by_cases hp : passesAllChecks st.currentAngle st.capturedPoseAngles f
    · have heq := detectFaceInFrame_pass st f hp
      rw [heq] at hacc
      obtain ⟨_, _, _, _, _, _, _, _, _, h10, h11, h12⟩ := hp
      exact ⟨h10, h11, h12, by simpa using hacc⟩
    · rw [(detectFaceInFrame_fail st f hp).1] at hacc
      exact absurd hacc Bool.false_ne_true
  · exact fun st f hn =>
      ⟨(detectFaceInFrame_fail st f hn).1, (detectFaceInFrame_fail st f hn).2.1⟩
  · intro st frames h0 hacc
    rcases List.eq_nil_or_concat frames with rfl | ⟨fs, f, rfl⟩
    · exact absurd hacc (by simp [runFrames])
    · rw [List.concat_eq_append] at hacc ⊢
      rw [runFrames_append] at hacc
      by_cases hp : passesAllChecks (runFrames st fs).2.currentAngle
          (runFrames st fs).2.capturedPoseAngles f
      · have heq := detectFaceInFrame_pass (runFrames st fs).2 f hp
        rw [heq] at hacc
        have h5 : 5 ≤ (runFrames st fs).2.poseStableCount + 1 := by simpa using hacc
        have hcount : (runFrames st (fs ++ [f])).2.poseStableCount =
            (runFrames st fs).2.poseStableCount + 1 := by
          rw [runFrames_append, heq]
        have hbound := runFrames_count_le st fs
        rw [h0] at hbound
        have hlen5 : 5 ≤ (fs ++ [f]).length := by
          simp only [List.length_append, List.length_cons, List.length_nil]
          omega
        exact ⟨hlen5, runFrames_count_passes st (fs ++ [f]) 5
          (by rw [hcount]; omega) hlen5⟩
      · rw [(detectFaceInFrame_fail _ f hp).1] at hacc
        exact absurd hacc Bool.false_ne_true

/-- Claim C7 counterexample: at the `right` stage with a captured front pose at
yaw 10 degrees and four stable frames already counted, a frame at yaw 30
degrees — exactly 20 degrees from the captured pose, not strictly more — is
accepted for capture. -/
theorem c7_counterexample_exact_20_accepted :
    (detectFaceInFrame c7State c7Frame).1 = true ∧
    c7State.capturedPoseAngles = [(CaptureAngle.front, 10)] ∧
    ¬ (20 < |c7Frame.yaw - 10|) := by
  have hp : passesAllChecks c7State.currentAngle c7State.capturedPoseAngles c7Frame := by
    unfold passesAllChecks c7State c7Frame angleRange
    refine ⟨rfl, by norm_num, by norm_num, by norm_num, by norm_num, by norm_num,
      by norm_num, by norm_num, rfl, by norm_num, by norm_num, ?_⟩
    intro p hp
    simp only [List.mem_singleton] at hp
    subst hp
    norm_num
  refine ⟨?_, rfl, by norm_num [c7Frame]⟩
  rw [detectFaceInFrame_pass _ _ hp]
  simp [c7State]

/-- Witness for C7: a fresh `front` session accepts the fifth of five
consecutive good frames, and the run-level clause of the gating theorem
applies to it. -/
theorem c7_witness :
    c7StartState.poseStableCount = 0 ∧
    (runFrames c7StartState c7FiveFrames).1 = true ∧
    (5 ≤ c7FiveFrames.length ∧
      ∀ g ∈ c7FiveFrames.drop (c7FiveFrames.length - 5),
        passesAllChecks c7StartState.currentAngle c7StartState.capturedPoseAngles g) := by
  have h0 : c7StartState.poseStableCount = 0 := rfl
  have hrun : (runFrames c7StartState c7FiveFrames).1 = true := by decide
  exact ⟨h0, hrun, c7_pose_gating.2.2 c7StartState c7FiveFrames h0 hrun⟩

/-! ## Engine lemmas and claims C8 to C10 -/

theorem effectiveDistance_none_eq (query : Enc) (r : EngineRecord) :
    effectiveDistance query none r = faceDistance query r.encodingArray := rfl

theorem effectiveDistance_hit (query : Enc) (a : String) (r : EngineRecord)
    (ha : a ≠ "") (hr : r.angle = a) :
    effectiveDistance query (some a) r =
      faceDistance query r.encodingArray * (9/10) := by
  unfold effectiveDistance
  show (if a ≠ "" ∧ r.angle = a then faceDistance query r.encodingArray * (9/10)
    else faceDistance query r.encodingArray) = _
  rw [if_pos ⟨ha, hr⟩]

theorem effectiveDistance_miss (query : Enc) (a : String) (r : EngineRecord)
    (hr : r.angle ≠ a) :
    effectiveDistance query (some a) r = faceDistance query r.encodingArray := by
  unfold effectiveDistance
  show (if a ≠ "" ∧ r.angle = a then faceDistance query r.encodingArray * (9/10)
    else faceDistance query r.encodingArray) = _
  rw [if_neg (fun hc => hr hc.2)]

theorem bestEngineMatch_aux (query : Enc) (hint : Option String)
    (l : List EngineRecord) :
    ∀ (b0 c : EngineRecord × ℝ),
      l.foldl (matchFaceStep query hint) (some b0) = some c →
      (c = b0 ∨ (c.1 ∈ l ∧ c.2 = effectiveDistance query hint c.1)) ∧
      c.2 ≤ b0.2 ∧ ∀ r ∈ l, c.2 ≤ effectiveDistance query hint r := by
  induction l with
  | nil =>
      intro b0 c h
      simp only [List.foldl_nil, Option.some.injEq] at h
      exact ⟨Or.inl h.symm, le_of_eq (congrArg Prod.snd h.symm), by simp⟩
  | cons a l ih =>
      intro b0 c h
      rw [List.foldl_cons] at h
      have hstep : matchFaceStep query hint (some b0) a =
          if effectiveDistance query hint a < b0.2 then
            some (a, effectiveDistance query hint a)
          else some b0 := by
        obtain ⟨b, bd⟩ := b0
        rfl
      by_cases hcmp : effectiveDistance query hint a < b0.2
      · rw [hstep, if_pos hcmp] at h
        obtain ⟨hc, hle, hall⟩ := ih (a, effectiveDistance query hint a) c h
        refine ⟨?_, le_trans hle (le_of_lt hcmp), ?_⟩
        · rcases hc with rfl | ⟨hm, he⟩
          · exact Or.inr ⟨List.mem_cons_self a l, rfl⟩
          · exact Or.inr ⟨List.mem_cons_of_mem a hm, he⟩
        · intro r hr
          rcases List.mem_cons.mp hr with rfl | hr'
          · exact hle
          · exact hall r hr'
      · rw [hstep, if_neg hcmp] at h
        obtain ⟨hc, hle, hall⟩ := ih b0 c h
        refine ⟨?_, hle, ?_⟩
        · rcases hc with rfl | ⟨hm, he⟩
          · exact Or.inl rfl
          · exact Or.inr ⟨List.mem_cons_of_mem a hm, he⟩
        · intro r hr
          rcases List.mem_cons.mp hr with rfl | hr'
          · exact le_trans hle (not_lt.mp hcmp)
          · exact hall r hr'

theorem bestEngineMatch_spec (query : Enc) (hint : Option String)
    (records : List EngineRecord) (b : EngineRecord) (bd : ℝ)
    (h : bestEngineMatch query hint records = some (b, bd)) :
    b ∈ records ∧ bd = effectiveDistance query hint b ∧
    ∀ r ∈ records, bd ≤ effectiveDistance query hint r := by
  cases records with
  | nil => simp [bestEngineMatch] at h
  | cons a l =>
      unfold bestEngineMatch at h
      rw [List.foldl_cons] at h
      have h' : l.foldl (matchFaceStep query hint)
          (some (a, effectiveDistance query hint a)) = some (b, bd) := h
      obtain ⟨hc, hle, hall⟩ :=
        bestEngineMatch_aux query hint l (a, effectiveDistance query hint a) (b, bd) h'
      refine ⟨?_, ?_, ?_⟩
      · rcases hc with heq | ⟨hm, he⟩
        · have hb : b = a := congrArg Prod.fst heq
          rw [hb]
          exact List.mem_cons_self a l
        · exact List.mem_cons_of_mem a hm
      · rcases hc with heq | ⟨hm, he⟩
        · have hb : b = a := congrArg Prod.fst heq
          have hd : bd = effectiveDistance query hint a := congrArg Prod.snd heq
          rw [hd, hb]
        · exact he
      · intro r hr
        rcases List.mem_cons.mp hr with rfl | hr'
        · exact hle
        · exact hall r hr'

theorem distanceToConfidence_zero : distanceToConfidence 0 = 1 := by
  unfold distanceToConfidence
  rw [neg_zero, Real.exp_zero]
  norm_num

/-- Claim C8 (amended): with *no* angle hint, `match_face` selects a stored
row of minimal plain Euclidean distance and reports exactly that Euclidean
distance (and the 0.7/0.3 confidence/quality blend of it); but when an angle
hint is given, rows whose stored angle equals the hint have their distance
multiplied by 0.9 before the comparison, and the reported distance is the
boosted value — the hint *does* reweight distances. -/
theorem c8_plain_nearest_no_hint :
    (∀ (records : List EngineRecord) (query : Enc) (threshold : ℝ)
        (pid eid : ℕ) (conf dist qs : ℝ) (ang : String),
        matchFace records query none threshold =
          .matched pid conf dist ang qs eid →
        ∃ r ∈ records, r.personId = pid ∧ r.angle = ang ∧ r.id = eid ∧
          r.qualityScore = qs ∧ dist = faceDistance query r.encodingArray ∧
          conf = 7/10 * distanceToConfidence dist + 3/10 * r.qualityScore ∧
          ∀ r' ∈ records, dist ≤ faceDistance query r'.encodingArray) ∧
    (∀ (query : Enc) (a : String) (r : EngineRecord), a ≠ "" → r.angle = a →
        effectiveDistance query (some a) r =
          faceDistance query r.encodingArray * (9/10)) ∧
    (∀ (query : Enc) (a : String) (r : EngineRecord), r.angle ≠ a →
        effectiveDistance query (some a) r = faceDistance query r.encodingArray) ∧
    (∀ (query : Enc) (r : EngineRecord),
        effectiveDistance query none r = faceDistance query r.encodingArray) := by
  refine ⟨?_, effectiveDistance_hit, effectiveDistance_miss, effectiveDistance_none_eq⟩
  intro records query threshold pid eid conf dist qs ang h
  unfold matchFace at h
  split at h
  · exact absurd h (by simp)
  · split at h
    next heq => exact absurd h (by simp)
    next b bd heq =>
      split_ifs at h with hth
      · simp only [MatchFaceResult.matched.injEq] at h
        obtain ⟨hpid, hconf, hdist, hang, hqs, hid⟩ := h
        obtain ⟨hmem, hbd, hall⟩ := bestEngineMatch_spec query none records b bd heq
        refine ⟨b, hmem, hpid, hang, hid, hqs, ?_, ?_, ?_⟩
        · rw [← hdist, hbd, effectiveDistance_none_eq]
        · rw [← hconf, hdist]
        · intro r' hr'
          have := hall r' hr'
          rw [effectiveDistance_none_eq] at this
          rw [← hdist]
          exact this

/-- Witness for C8: a single-row population at distance 0 with no hint. -/
theorem c8_witness :
    matchFace [engRecW] zeroEnc none (6/10) =
      .matched 5 (7/10 * distanceToConfidence 0 + 3/10 * 1) 0 "frontal" 1 1 ∧
    ∃ r ∈ [engRecW], r.personId = 5 ∧ r.angle = "frontal" ∧ r.id = 1 ∧
      r.qualityScore = 1 ∧ (0 : ℝ) = faceDistance zeroEnc r.encodingArray ∧
      (7/10 * distanceToConfidence 0 + 3/10 * 1 : ℝ) =
        7/10 * distanceToConfidence 0 + 3/10 * r.qualityScore ∧
      ∀ r' ∈ [engRecW], (0 : ℝ) ≤ faceDistance zeroEnc r'.encodingArray := by
  have heff : effectiveDistance zeroEnc none engRecW = 0 := by
    rw [effectiveDistance_none_eq]
    exact faceDistance_self zeroEnc
  have hbest : bestEngineMatch zeroEnc none [engRecW] = some (engRecW, 0) := by
    unfold bestEngineMatch
    rw [List.foldl_cons, List.foldl_nil,
      show matchFaceStep zeroEnc none none engRecW =
        some (engRecW, effectiveDistance zeroEnc none engRecW) from rfl, heff]
  have heval : matchFace [engRecW] zeroEnc none (6/10) =
      .matched 5 (7/10 * distanceToConfidence 0 + 3/10 * 1) 0 "frontal" 1 1 := by
    unfold matchFace
    rw [if_neg (by simp), hbest]
    show (if (0 : ℝ) < 6/10 then
        MatchFaceResult.matched engRecW.personId
          (7/10 * distanceToConfidence 0 + 3/10 * engRecW.qualityScore) 0
          engRecW.angle engRecW.qualityScore engRecW.id
      else MatchFaceResult.noMatch 0) = _
    rw [if_pos (by norm_num)]
    rfl
  exact ⟨heval,
    c8_plain_nearest_no_hint.1 [engRecW] zeroEnc (6/10) 5 1 _ 0 1 "frontal" heval⟩

/-- Claim C8 counterexample: with hint `frontal`, the row at plain distance
`1/2` (stored angle `frontal`) wins over the row at plain distance
`12/25 < 1/2` because its boosted distance is `0.45 < 0.48`, and the reported
distance `9/20` is the boosted value, not the Euclidean distance `1/2` of the
selected row. -/
theorem c8_counterexample_hint_boost :
    matchFace [engRec1, engRec2] zeroEnc (some "frontal") (6/10) =
      .matched 10 (7/10 * distanceToConfidence (9/20) + 3/10 * (1/2)) (9/20)
        "frontal" (1/2) 1 ∧
    faceDistance zeroEnc engRec2.encodingArray <
      faceDistance zeroEnc engRec1.encodingArray ∧
    (9/20 : ℝ) ≠ faceDistance zeroEnc engRec1.encodingArray := by
  have hd1 : faceDistance zeroEnc engRec1.encodingArray = 1/2 := by
    show faceDistance zeroEnc (unitEnc (1/2)) = 1/2
    rw [faceDistance_comm]
    exact faceDistance_unitEnc _ (by norm_num)
  have hd2 : faceDistance zeroEnc engRec2.encodingArray = 12/25 := by
    show faceDistance zeroEnc (unitEnc (12/25)) = 12/25
    rw [faceDistance_comm]
    exact faceDistance_unitEnc _ (by norm_num)
  have he1 : effectiveDistance zeroEnc (some "frontal") engRec1 = 9/20 := by
    rw [effectiveDistance_hit zeroEnc "frontal" engRec1 (by decide) rfl, hd1]
    norm_num
  have he2 : effectiveDistance zeroEnc (some "frontal") engRec2 = 12/25 := by
    rw [effectiveDistance_miss zeroEnc "frontal" engRec2 (by decide), hd2]
  have hbest : bestEngineMatch zeroEnc (some "frontal") [engRec1, engRec2] =
      some (engRec1, 9/20) := by
    unfold bestEngineMatch
    rw [List.foldl_cons, List.foldl_cons, List.foldl_nil,
      show matchFaceStep zeroEnc (some "frontal") none engRec1 =
        some (engRec1, effectiveDistance zeroEnc (some "frontal") engRec1) from rfl,
      he1,
      show matchFaceStep zeroEnc (some "frontal") (some (engRec1, 9/20)) engRec2 =
        if effectiveDistance zeroEnc (some "frontal") engRec2 < 9/20 then
          some (engRec2, effectiveDistance zeroEnc (some "frontal") engRec2)
        else some (engRec1, 9/20) from rfl,
      he2, if_neg (by norm_num)]
  refine ⟨?_, ?_, ?_⟩
  · unfold matchFace
    rw [if_neg (by simp), hbest]
    show (if (9/20 : ℝ) < 6/10 then
        MatchFaceResult.matched engRec1.personId
          (7/10 * distanceToConfidence (9/20) + 3/10 * engRec1.qualityScore) (9/20)
          engRec1.angle engRec1.qualityScore engRec1.id
      else MatchFaceResult.noMatch (9/20)) = _
    rw [if_pos (by norm_num)]
    rfl
  · rw [hd1, hd2]
    norm_num
  · rw [hd1]
    norm_num

theorem bestPersonScan_aux (queries : List (String × Enc)) (threshold : ℝ)
    (groups : List (ℕ × List EngineRecord)) :
    ∀ acc : Option ℕ × ℝ,
      acc.2 ≤ (groups.foldl (personScanStep queries threshold) acc).2 ∧
      (∀ g ∈ groups, matchScores g.2 queries threshold ≠ [] →
        listMean (matchScores g.2 queries threshold) ≤
          (groups.foldl (personScanStep queries threshold) acc).2) ∧
      ((groups.foldl (personScanStep queries threshold) acc) = acc ∨
        ∃ g ∈ groups, matchScores g.2 queries threshold ≠ [] ∧
          (groups.foldl (personScanStep queries threshold) acc).1 = some g.1 ∧
          (groups.foldl (personScanStep queries threshold) acc).2 =
            listMean (matchScores g.2 queries threshold)) := by
  induction groups with
  | nil => exact fun acc => ⟨le_refl _, by simp, Or.inl rfl⟩
  | cons g gs ih =>
      intro acc
      rw [List.foldl_cons]
      have hstep : personScanStep queries threshold acc g =
          if (matchScores g.2 queries threshold).isEmpty then acc
          else if acc.2 < listMean (matchScores g.2 queries threshold) then
            (some g.1, listMean (matchScores g.2 queries threshold))
          else acc := rfl
      by_cases hemp : (matchScores g.2 queries threshold).isEmpty
      · rw [hstep, if_pos hemp]
        obtain ⟨h1, h2, h3⟩ := ih acc
        refine ⟨h1, ?_, ?_⟩
        · intro g' hg' hne
          rcases List.mem_cons.mp hg' with rfl | hg''
          · exact absurd (List.isEmpty_iff.mp hemp) hne
          · exact h2 g' hg'' hne
        · rcases h3 with he | ⟨g', hg', hne, hp1, hp2⟩
          · exact Or.inl he
          · exact Or.inr ⟨g', List.mem_cons_of_mem g hg', hne, hp1, hp2⟩
      · by_cases hlt : acc.2 < listMean (matchScores g.2 queries threshold)
        · rw [hstep, if_neg hemp, if_pos hlt]
          obtain ⟨h1, h2, h3⟩ :=
            ih (some g.1, listMean (matchScores g.2 queries threshold))
          refine ⟨le_trans (le_of_lt hlt) h1, ?_, ?_⟩
          · intro g' hg' hne'
            rcases List.mem_cons.mp hg' with rfl | hg''
            · exact h1
            · exact h2 g' hg'' hne'
          · rcases h3 with he | ⟨g', hg', hne', hp1, hp2⟩
            · refine Or.inr ⟨g, List.mem_cons_self g gs, ?_, ?_, ?_⟩
              · intro hnil
                exact hemp (by rw [hnil]; rfl)
              · rw [he]
              · rw [he]
            · exact Or.inr ⟨g', List.mem_cons_of_mem g hg', hne', hp1, hp2⟩
        · rw [hstep, if_neg hemp, if_neg hlt]
          obtain ⟨h1, h2, h3⟩ := ih acc
          refine ⟨h1, ?_, ?_⟩
          · intro g' hg' hne'
            rcases List.mem_cons.mp hg' with rfl | hg''
            · exact le_trans (not_lt.mp hlt) h1
            · exact h2 g' hg'' hne'
          · rcases h3 with he | ⟨g', hg', hne', hp1, hp2⟩
            · exact Or.inl he
            · exact Or.inr ⟨g', List.mem_cons_of_mem g hg', hne', hp1, hp2⟩

theorem bestPersonScan_spec (queries : List (String × Enc)) (threshold : ℝ)
    (groups : List (ℕ × List EngineRecord)) :
    (∀ g ∈ groups, matchScores g.2 queries threshold ≠ [] →
      listMean (matchScores g.2 queries threshold) ≤
        (bestPersonScan groups queries threshold).2) ∧
    (bestPersonScan groups queries threshold = (none, 0) ∨
      ∃ g ∈ groups, matchScores g.2 queries threshold ≠ [] ∧
        (bestPersonScan groups queries threshold).1 = some g.1 ∧
        (bestPersonScan groups queries threshold).2 =
          listMean (matchScores g.2 queries threshold)) := by
  have h := bestPersonScan_aux queries threshold groups (none, 0)
  exact ⟨h.2.1, h.2.2⟩

/-- Claim C9 (amended): `match_multi_angle` computes a weighted score
`angle_weight * (0.7 * confidence + 0.3 * quality)` only for query
orientations whose best distance to the person's rows is strictly below the
threshold; orientations at or beyond the threshold are *excluded* from the
average (not scored).  A match is reported iff some person has a non-empty
score list whose average over the *scored* orientations exceeds 0.5. -/
theorem c9_threshold_filtered_average (records : List EngineRecord)
    (queries : List (String × Enc)) (threshold : ℝ)
    (hr : records ≠ []) (hq : queries ≠ []) :
    (∃ pid conf, matchMultiAngle records queries threshold = .matched pid conf) ↔
    ∃ g ∈ groupByPerson records, matchScores g.2 queries threshold ≠ [] ∧
      1/2 < listMean (matchScores g.2 queries threshold) := by
  obtain ⟨hmono, hcase⟩ := bestPersonScan_spec queries threshold (groupByPerson records)
  rcases hBP : bestPersonScan (groupByPerson records) queries threshold with ⟨o, c⟩
  rw [hBP] at hmono hcase
  have hq' : ¬ (queries.isEmpty = true) := fun h => hq (List.isEmpty_iff.mp h)
  have hr' : ¬ (records.isEmpty = true) := fun h => hr (List.isEmpty_iff.mp h)
  cases o with
  | none =>
      have hev : matchMultiAngle records queries threshold = .noConfidentMatch c := by
        unfold matchMultiAngle
        rw [if_neg hq', if_neg hr', hBP]
      constructor
      · rintro ⟨pid, conf, hm⟩
        rw [hev] at hm
        exact absurd hm (by simp)
      · rintro ⟨g, hg, hne, hgt⟩
        rcases hcase with he | ⟨g', _, _, hp1, _⟩
        · have hc0 : c = 0 := congrArg Prod.snd he
          have hle := hmono g hg hne
          rw [hc0] at hle
          have hle' : listMean (matchScores g.2 queries threshold) ≤ 0 := hle
          linarith
        · exact absurd hp1 (by simp)
  | some pid' =>
      have hev : matchMultiAngle records queries threshold =
          if 1/2 < c then .matched pid' c else .noConfidentMatch c := by
        unfold matchMultiAngle
        rw [if_neg hq', if_neg hr', hBP]
      constructor
      · rintro ⟨pid, conf, hm⟩
        rw [hev] at hm
        split_ifs at hm with hgt
        · rcases hcase with he | ⟨g, hg, hne, hp1, hp2⟩
          · exact absurd (congrArg Prod.fst he) (by simp)
          · refine ⟨g, hg, hne, ?_⟩
            have hc : c = listMean (matchScores g.2 queries threshold) := hp2
            rw [← hc]
            exact hgt
      · rintro ⟨g, hg, hne, hgt⟩
        have hcc : (1:ℝ)/2 < c := lt_of_lt_of_le hgt (hmono g hg hne)
        exact ⟨pid', c, by rw [hev, if_pos hcc]⟩

/-- Witness for C9: the accept-iff-averaged-score clause applied to a one-row
population and a single query orientation. -/
theorem c9_witness :
    ([engRecW] : List EngineRecord) ≠ [] ∧
    ([("frontal", zeroEnc)] : List (String × Enc)) ≠ [] ∧
    ((∃ pid conf, matchMultiAngle [engRecW] [("frontal", zeroEnc)] (6/10) =
        .matched pid conf) ↔
      ∃ g ∈ groupByPerson [engRecW],
        matchScores g.2 [("frontal", zeroEnc)] (6/10) ≠ [] ∧
        1/2 < listMean (matchScores g.2 [("frontal", zeroEnc)] (6/10))) :=
  ⟨by simp, by simp,
    c9_threshold_filtered_average [engRecW] [("frontal", zeroEnc)] (6/10)
      (by simp) (by simp)⟩

/-- Claim C9 counterexample: one stored row (person 1, quality 0.2) at the
query's `frontal` vector, plus a second query orientation `left_90` at
distance 2.  The code drops the far orientation (2 is not below the 0.6
threshold) and reports a match with confidence 0.76; the claim's average over
*all* query orientations is at most 0.5, so the claim's accept-iff condition
predicts no match. -/
theorem c9_counterexample_threshold_filter :
    matchMultiAngle [c9Rec] c9Queries (6/10) = .matched 1 (19/25) ∧
    ¬ (1/2 < specAverageScoreAllAngles [c9Rec] c9Queries) := by
  have haw : angleWeight "frontal" = 1 := by
    unfold angleWeight
    rw [if_pos rfl]
  have haw90 : angleWeight "left_90" = 6/10 := by
    unfold angleWeight
    rw [if_neg (by decide), if_neg (by decide), if_neg (by decide), if_pos rfl]
  have hba1 : bestAngleMatch [c9Rec] zeroEnc = some (0, 1/5) := by
    unfold bestAngleMatch
    rw [List.foldl_cons, List.foldl_nil,
      show bestAngleStep zeroEnc none c9Rec =
        some (faceDistance zeroEnc c9Rec.encodingArray, c9Rec.qualityScore) from rfl,
      show faceDistance zeroEnc c9Rec.encodingArray = 0 from faceDistance_self zeroEnc]
    rfl
  have hba2 : bestAngleMatch [c9Rec] (unitEnc 2) = some (2, 1/5) := by
    unfold bestAngleMatch
    rw [List.foldl_cons, List.foldl_nil,
      show bestAngleStep (unitEnc 2) none c9Rec =
        some (faceDistance (unitEnc 2) c9Rec.encodingArray, c9Rec.qualityScore) from rfl,
      show faceDistance (unitEnc 2) c9Rec.encodingArray = 2 from
        faceDistance_unitEnc 2 (by norm_num)]
    rfl
  have h1 : (0:ℝ) < 6/10 := by norm_num
  have h2 : ¬ (2:ℝ) < 6/10 := by norm_num
  have hms : matchScores [c9Rec] c9Queries (6/10) =
      [angleWeight "frontal" * (7/10 * distanceToConfidence 0 + 3/10 * (1/5))] := by
    unfold matchScores c9Queries
    simp [hba1, hba2, h1, h2]
  have hval : listMean
      [angleWeight "frontal" * (7/10 * distanceToConfidence 0 + 3/10 * (1/5))] =
      19/25 := by
    unfold listMean
    rw [haw, distanceToConfidence_zero]
    simp
    norm_num
  have hgroup : groupByPerson [c9Rec] = [(1, [c9Rec])] := rfl
  have hms' : matchScores (((1 : ℕ), [c9Rec]) : ℕ × List EngineRecord).2
      c9Queries (6/10) =
      [angleWeight "frontal" * (7/10 * distanceToConfidence 0 + 3/10 * (1/5))] := hms
  have hbps : bestPersonScan (groupByPerson [c9Rec]) c9Queries (6/10) =
      (some 1, 19/25) := by
    rw [hgroup]
    unfold bestPersonScan
    rw [List.foldl_cons, List.foldl_nil]
    unfold personScanStep
    simp only []
    rw [hms', hval, if_neg (by simp), if_pos (show ((none, 0) : Option ℕ × ℝ).2 < 19/25
      from by norm_num)]
  have hfinal : matchMultiAngle [c9Rec] c9Queries (6/10) = .matched 1 (19/25) := by
    unfold matchMultiAngle
    rw [if_neg (by simp [c9Queries]), if_neg (by simp), hbps]
    show (if (1:ℝ)/2 < 19/25 then MultiMatchResult.matched 1 (19/25)
      else MultiMatchResult.noConfidentMatch (19/25)) = _
    rw [if_pos (by norm_num)]
  have hexp1 : Real.exp (-2) ≤ 1 := by
    have := Real.exp_le_exp.mpr (by norm_num : (-2:ℝ) ≤ 0)
    rwa [Real.exp_zero] at this
  have hdtc2 : distanceToConfidence 2 = Real.exp (-2) := by
    unfold distanceToConfidence
    rw [max_eq_right (le_of_lt (Real.exp_pos _)), min_eq_right hexp1]
  have hexp7 : Real.exp (-2) < 1/7 := by
    have he2 : Real.exp 2 = Real.exp 1 * Real.exp 1 := by
      rw [← Real.exp_add]
      norm_num
    have h7 : (7:ℝ) < Real.exp 2 := by
      have h := Real.exp_one_gt_d9
      nlinarith
    rw [Real.exp_neg]
    have hpos : (0:ℝ) < 7 := by norm_num
    have := inv_strictAnti₀ hpos h7
    simpa using this
  have hspec : specAverageScoreAllAngles [c9Rec] c9Queries =
      (angleWeight "frontal" * (7/10 * distanceToConfidence 0 + 3/10 * (1/5)) +
        angleWeight "left_90" * (7/10 * distanceToConfidence 2 + 3/10 * (1/5))) / 2 := by
    unfold specAverageScoreAllAngles c9Queries listMean
    simp [hba1, hba2]
  refine ⟨hfinal, ?_⟩
  rw [hspec, haw, haw90, distanceToConfidence_zero, hdtc2]
  intro hcon
  nlinarith [Real.exp_pos (-2 : ℝ)]

theorem findSimilarFaces_sorted (records : List EngineRecord) (query : Enc)
    (topK : ℕ) :
    List.Pairwise (fun a b : MatchEntry => a.distance ≤ b.distance)
      (findSimilarFaces records query topK) := by
  unfold findSimilarFaces
  by_cases he : records.isEmpty
  · rw [if_pos he]
    exact List.Pairwise.nil
  · rw [if_neg he]
    refine List.Pairwise.sublist (List.take_sublist _ _) ?_
    have h := @List.sorted_mergeSort MatchEntry
      (fun a b : MatchEntry => decide (a.distance ≤ b.distance))
      (fun a b c hab hbc => by
        simp only [decide_eq_true_eq] at *
        exact le_trans hab hbc)
      (fun a b => by
        simp only [Bool.or_eq_true, decide_eq_true_eq]
        exact le_total a.distance b.distance)
      (records.map
        (fun r =>
          ({ personId := r.personId,
             distance := faceDistance query r.encodingArray,
             confidence := distanceToConfidence (faceDistance query r.encodingArray),
             angle := r.angle,
             qualityScore := r.qualityScore } : MatchEntry)))
    exact h.imp (fun hab => of_decide_eq_true hab)

theorem findSimilarFaces_mem (records : List EngineRecord) (query : Enc)
    (topK : ℕ) (m : MatchEntry) (hm : m ∈ findSimilarFaces records query topK) :
    ∃ r ∈ records, m.personId = r.personId ∧
      m.distance = faceDistance query r.encodingArray ∧
      m.confidence = distanceToConfidence (faceDistance query r.encodingArray) ∧
      m.angle = r.angle ∧ m.qualityScore = r.qualityScore := by
  unfold findSimilarFaces at hm
  by_cases he : records.isEmpty
  · rw [if_pos he] at hm
    exact absurd hm (List.not_mem_nil m)
  · rw [if_neg he] at hm
    have hm2 := List.mem_mergeSort.mp (List.take_subset _ _ hm)
    obtain ⟨r, hr, hrm⟩ := List.mem_map.mp hm2
    exact ⟨r, hr, by rw [← hrm], by rw [← hrm], by rw [← hrm], by rw [← hrm],
      by rw [← hrm]⟩

/-- Claim C10: `find_similar_faces` returns at most `top_k` entries, sorted by
non-decreasing Euclidean distance from the query, each annotated with
confidence `exp(-distance)` clamped to `[0,1]`, and this exponential
transform is distinct from the resolver's linear `(1 - distance) * 100`
transform (at distance `0.5` they give `exp(-0.5) < 1` and `50`
respectively). -/
theorem c10_top_k_ranked (records : List EngineRecord) (query : Enc) (topK : ℕ) :
    (findSimilarFaces records query topK).length ≤ topK ∧
    List.Pairwise (fun a b : MatchEntry => a.distance ≤ b.distance)
      (findSimilarFaces records query topK) ∧
    (∀ m ∈ findSimilarFaces records query topK,
      m.confidence = distanceToConfidence m.distance ∧
      0 ≤ m.confidence ∧ m.confidence ≤ 1 ∧
      ∃ r ∈ records, m.personId = r.personId ∧
        m.distance = faceDistance query r.encodingArray) ∧
    ENNReal.ofReal (distanceToConfidence (1/2)) ≠
      confidencePercentage (ENNReal.ofReal (1/2)) := by
  refine ⟨?_, findSimilarFaces_sorted records query topK, ?_, ?_⟩
  · unfold findSimilarFaces
    by_cases he : records.isEmpty
    · rw [if_pos he]
      exact Nat.zero_le topK
    · rw [if_neg he]
      exact List.length_take_le _ _
  · intro m hm
    obtain ⟨r, hr, _, hd, hc, _, _⟩ := findSimilarFaces_mem records query topK m hm
    refine ⟨by rw [hc, hd], ?_, ?_, r, hr, by tauto, hd⟩
    · rw [hc]
      exact le_min zero_le_one (le_max_left 0 _)
    · rw [hc]
      exact min_le_left 1 _
  · have hlin : confidencePercentage (ENNReal.ofReal (1/2)) = 50 := by
      rw [ofReal_half, confidencePercentage_half]
    have hexp : ENNReal.ofReal (distanceToConfidence (1/2)) ≤ 1 := by
      rw [ENNReal.ofReal_le_one]
      exact min_le_left 1 _
    rw [hlin]
    exact ne_of_lt (lt_of_le_of_lt hexp (by norm_num))
